import Mathlib

/-!
Verification of the polymarket-stat-arb collector and analysis layer.

This file gives a shallow embedding, in Lean 4, of the pure logic of the
collector daemon and its analytics layer: winner inference
(src/collector/resolution_tracker.py), price-tuple extraction
(src/collector/price_snapshots.py), the retry/backoff wrapper
(src/utils/retry.py), order-book tuple derivation
(src/collector/orderbook_snapshots.py), the supervisor's crash-restart
policy (src/collector/daemon.py), trade inserts with duplicate fallback
(src/db/queries/trades.py), market upserts (src/db/queries/markets.py),
and relationship/signal generation (src/analysis/relationships.py,
src/analysis/signals.py).

Modelling conventions:
* Python floats are modelled as rationals (ℚ); none of the verified
  claims depend on binary floating-point rounding.
* Dynamic Python values (the raw Gamma-API JSON dicts) are modelled by
  the inductive `PyVal`.  Since we do not re-implement Python's string
  parsers, a string value carries, as data, the result of `float(s)`
  (`none` when `float` would raise) and the result of `json.loads(s)`
  (`none` when parsing would raise).  This is the standard trick for
  shallowly embedding an external parser: the claims under test never depend
  on the text of the string itself, only on the parse outcomes.
* Fallible Python code is modelled with `Except`/`Option`; a function
  documented as "never raises" becomes a total Lean function.
* Database tables are modelled as lists of typed rows, and the SQL
  statements issued by the code as Lean functions over those lists.
-/

namespace PolyStat

/-- A dynamic Python/JSON value as it appears in raw Gamma-API market
dicts.  `pstr s f j` is a Python string `s` together with the outcome
`f` of `float(s)` (`none` iff `float` raises) and the outcome `j` of
`json.loads(s)` (`none` iff parsing raises). -/
inductive PyVal : Type where
  | pnone : PyVal
  | pbool : Bool → PyVal
  | pnum : ℚ → PyVal
  | pstr : String → Option ℚ → Option PyVal → PyVal
  | plist : List PyVal → PyVal

/-- Python truthiness (`bool(v)`) for the values we model:
`None`, `False`, `0`, `""` and `[]` are falsy. -/
def pyTruthy : PyVal → Bool
  | .pnone => false
  | .pbool b => b
  | .pnum q => decide (q ≠ 0)
  | .pstr s _ _ => decide (s ≠ "")
  | .plist xs => !xs.isEmpty

/-- Python `float(v)`: numbers convert to themselves, booleans to 0/1,
strings to their parsed value when `float` succeeds; `None` and lists
raise `TypeError` (modelled as `none`). -/
def pyFloat : PyVal → Option ℚ
  | .pnone => none
  | .pbool b => some (if b then 1 else 0)
  | .pnum q => some q
  | .pstr _ f _ => f
  | .plist _ => none

/-- Python `str(v)` as used on token ids.  String values render as
themselves — the only case the claims depend on; other values get a
best-effort rendering. -/
def pyStr : PyVal → String
  | .pnone => "None"
  | .pbool b => if b then "True" else "False"
  | .pnum q => toString q
  | .pstr s _ _ => s
  | .plist _ => "[list]"

/-- `json.loads(v)`: succeeds only on a string whose contents parse;
any non-string argument raises `TypeError` (src calls it on the raw
field value directly). -/
def jsonLoads : PyVal → Except Unit PyVal
  | .pstr _ _ (some v) => .ok v
  | _ => .error ()

/-! ## Resolution tracker (src/collector/resolution_tracker.py) -/

/-- `_parse_json_field` (resolution_tracker.py lines 32-46): return the
value if it is already a list, parse it if it is a string whose JSON is
a list, and return `[]` in every other case (parse error, non-list
parse result, non-list non-string value). -/
def parse_json_field : PyVal → List PyVal
  | .plist xs => xs
  | .pstr _ _ (some (.plist xs)) => xs
  | .pstr _ _ _ => []
  | .pnone => []
  | .pbool _ => []
  | .pnum _ => []

/-- A raw Gamma-API market dict, restricted to the keys `infer_winner`
reads.  A missing key is `pnone` (`dict.get` returns `None`). -/
structure RawMarket where
  conditionId : PyVal := .pnone
  condition_id : PyVal := .pnone
  outcomePrices : PyVal := .pnone
  outcomes : PyVal := .pnone
  clobTokenIds : PyVal := .pnone

/-- The Python string `""`. -/
def emptyPyStr : PyVal := .pstr "" none none

/-- `raw_market.get("conditionId") or raw_market.get("condition_id") or ""`
(resolution_tracker.py lines 77-81). -/
def marketConditionId (m : RawMarket) : PyVal :=
  if pyTruthy m.conditionId then m.conditionId
  else if pyTruthy m.condition_id then m.condition_id
  else emptyPyStr

/-- The resolution record built by `infer_winner` (the wall-clock
`resolved_at` field is not modelled). -/
structure ResolutionData where
  condition_id : PyVal
  outcome : Option PyVal
  winner_token_id : Option PyVal
  payout_price : ℚ
  detection_method : String

/-- `infer_winner` (resolution_tracker.py lines 49-129): parse the three
JSON-array fields, scan `outcomePrices` for the first entry whose
`float` equals 1.0 (entries on which `float` raises are skipped), and
index-align with `outcomes` and `clobTokenIds`; absent alignment gives
`None` fields.  Returns `none` when `outcomePrices` is empty/malformed
or no entry equals 1.0.  Total (the source never raises). -/
def infer_winner (m : RawMarket) : Option ResolutionData :=
  let outcome_prices := parse_json_field m.outcomePrices
  let outcomeLabels := parse_json_field m.outcomes
  let clob_token_ids := parse_json_field m.clobTokenIds
  if outcome_prices.isEmpty then none
  else
    match outcome_prices.findIdx? (fun p => decide (pyFloat p = some 1)) with
    | none => none
    | some i =>
        some { condition_id := marketConditionId m
               outcome := outcomeLabels.get? i
               winner_token_id := clob_token_ids.get? i
               payout_price := 1
               detection_method := "gamma_api_polling" }

/-! ## Price snapshot collector (src/collector/price_snapshots.py) -/

/-- A raw Gamma-API market dict as read by the price collector,
restricted to the keys it uses.  `none` means the key is absent
(`dict.get` then supplies the default). -/
structure GammaMarket where
  clobTokenIds : Option PyVal := none
  outcomePrices : Option PyVal := none
  volume24hr : Option PyVal := none

/-- One price tuple `(token_id, price, volume_24h)`; the shared cycle
timestamp is omitted (it is the same constant on every tuple). -/
abbrev PriceTuple := String × ℚ × ℚ

/-- The `for token_id, price_str in zip(token_ids, prices)` loop of
`_extract_price_tuples` (price_snapshots.py lines 105-110): skip falsy
token ids, append a tuple per remaining pair — and raise (`.error ()`)
on the first price entry on which the unguarded `float()` fails. -/
def zipPriceTuples (volume_24h : ℚ) :
    List (PyVal × PyVal) → List PriceTuple → Except Unit (List PriceTuple)
  | [], acc => .ok acc
  | tp :: rest, acc =>
    if pyTruthy tp.1 then
      match pyFloat tp.2 with
      | none => .error ()
      | some price =>
        zipPriceTuples volume_24h rest (acc ++ [(pyStr tp.1, price, volume_24h)])
    else zipPriceTuples volume_24h rest acc

/-- The per-market body of `_extract_price_tuples`
(price_snapshots.py lines 73-110).  `.ok none` means the market was
skipped (`continue`), `.ok (some ts)` its tuples, and `.error ()` an
exception escaping the loop (the unguarded `float()` calls on
`volume24hr` and on each price entry). -/
def processMarket (m : GammaMarket) : Except Unit (Option (List PriceTuple)) :=
  match jsonLoads (m.clobTokenIds.getD emptyPyStr) with
  | .error _ => .ok none
  | .ok tv =>
    match tv with
    | .plist token_ids =>
      match jsonLoads (m.outcomePrices.getD emptyPyStr) with
      | .error _ => .ok none
      | .ok pv =>
        match pv with
        | .plist prices =>
          let vraw := m.volume24hr.getD (.pnum 0)
          let vdef := if pyTruthy vraw then vraw else .pnum 0
          match pyFloat vdef with
          | none => .error ()
          | some volume_24h =>
            (zipPriceTuples volume_24h (token_ids.zip prices) []).map some
        | _ => .ok none
    | _ => .ok none

/-- Tuple extraction over a flattened market list: concatenates each
market's tuples, propagating any exception. -/
def extractFromMarkets : List GammaMarket → Except Unit (List PriceTuple)
  | [] => .ok []
  | m :: rest =>
    match processMarket m with
    | .error e => .error e
    | .ok t =>
      match extractFromMarkets rest with
      | .error e => .error e
      | .ok ts => .ok (t.getD [] ++ ts)

/-- `_extract_price_tuples` (price_snapshots.py lines 50-112): iterate
events and their nested markets in order. -/
def extract_price_tuples (events : List (List GammaMarket)) :
    Except Unit (List PriceTuple) :=
  extractFromMarkets events.flatten

/-- `collect_once` of the price collector (price_snapshots.py lines
114-145): extract tuples from the fetched events and bulk-insert them;
the surrounding `try/except` turns any exception into a `0` return with
nothing inserted.  Returns the insert count together with the list of
tuples actually bulk-copied.  Total (never raises). -/
def price_collect_once (events : List (List GammaMarket)) :
    ℕ × List PriceTuple :=
  match extract_price_tuples events with
  | .error _ => (0, [])
  | .ok ts => (ts.length, ts)

/-! ## Retry wrapper (src/utils/retry.py) -/

/-- `RETRYABLE_STATUS_CODES` (retry.py lines 31-38). -/
def RETRYABLE_STATUS_CODES : List ℕ := [408, 429, 500, 502, 503, 504]

/-- `is_retryable_status` (retry.py lines 66-68). -/
def is_retryable_status (status_code : ℕ) : Bool :=
  RETRYABLE_STATUS_CODES.contains status_code

/-- The exponential-backoff delay
`min(base_delay * exponential_base ** (attempt - 1), max_delay)`
(retry.py lines 122-125 and 328). -/
def retryBackoffDelay (base_delay exponential_base : ℚ) (attempt : ℕ)
    (max_delay : ℚ) : ℚ :=
  min (base_delay * exponential_base ^ (attempt - 1)) max_delay

/-- A `Retry-After` header as seen by `_delay_for_status`: `none` when
the header is absent or empty (falsy), `some none` when present but
`float()` raises on it, `some (some h)` when it parses to `h`. -/
abbrev RetryAfterHint := Option (Option ℚ)

/-- `_delay_for_status` (retry.py lines 313-328): for a 429 with a
parseable `Retry-After` hint return `min(hint, max_delay)`; in every
other case the exponential-backoff delay. -/
def delay_for_status (status : ℕ) (retryAfter : RetryAfterHint)
    (base_delay exponential_base : ℚ) (attempt : ℕ) (max_delay : ℚ) : ℚ :=
  if status = 429 then
    match retryAfter with
    | some (some h) => min h max_delay
    | _ => retryBackoffDelay base_delay exponential_base attempt max_delay
  else retryBackoffDelay base_delay exponential_base attempt max_delay

/-- Outcome of one attempt of the wrapped coroutine, as classified by
the `except` clauses of `retry` (retry.py lines 111-165). -/
inductive CallResult where
  | success
  | fatalExn
  | otherExn
  | retryableExn
  | statusErr (code : ℕ) (retryAfter : RetryAfterHint)

/-- How the `retry` wrapper terminates. -/
inductive RunOutcome where
  | ok
  | exhausted
  | raised
deriving DecidableEq

/-- The attempt loop of `retry` (retry.py lines 111-167).  `attempt` is
the 1-based attempt about to run, `rem + 1` the number of attempts
still allowed (so `rem = 0` means `attempt = max_attempts`).  Returns
the terminal outcome and the list of `(attempt, delay)` sleeps
executed before retries. -/
def retryAux (f : ℕ → CallResult) (base_delay exponential_base max_delay : ℚ) :
    ℕ → ℕ → RunOutcome × List (ℕ × ℚ)
  | _, 0 => (.exhausted, [])
  | attempt, rem + 1 =>
    match f attempt with
    | .success => (.ok, [])
    | .fatalExn => (.raised, [])
    | .otherExn => (.raised, [])
    | .retryableExn =>
      if rem = 0 then (.exhausted, [])
      else
        let d := retryBackoffDelay base_delay exponential_base attempt max_delay
        let r := retryAux f base_delay exponential_base max_delay (attempt + 1) rem
        (r.1, (attempt, d) :: r.2)
    | .statusErr code retryAfter =>
      if is_retryable_status code then
        if rem = 0 then (.exhausted, [])
        else
          let d := delay_for_status code retryAfter base_delay exponential_base
            attempt max_delay
          let r := retryAux f base_delay exponential_base max_delay (attempt + 1) rem
          (r.1, (attempt, d) :: r.2)
      else (.raised, [])

/-- One run of a function wrapped by
`retry(max_attempts, base_delay, max_delay, exponential_base)`, with
`f a` the outcome of attempt `a`. -/
def retry_run (f : ℕ → CallResult) (max_attempts : ℕ)
    (base_delay exponential_base max_delay : ℚ) : RunOutcome × List (ℕ × ℚ) :=
  retryAux f base_delay exponential_base max_delay 1 max_attempts

/-! ## Order-book snapshot collector (src/collector/orderbook_snapshots.py) -/

/-- One order-book level `[price, size]` (string fields already run
through `float()`; the claims do not involve level-parse failures). -/
structure OrderLevel where
  price : ℚ
  size : ℚ
deriving DecidableEq

/-- A CLOB order-book response: `bids` and `asks` level lists. -/
structure OrderBook where
  bids : List OrderLevel
  asks : List OrderLevel

/-- The snapshot tuple built by `_extract_orderbook_tuple` (the shared
timestamp is omitted). -/
structure OrderbookTuple where
  token_id : String
  bids : List OrderLevel
  asks : List OrderLevel
  spread : Option ℚ
  midpoint : Option ℚ
deriving DecidableEq

/-- `_extract_orderbook_tuple` (orderbook_snapshots.py lines 60-105):
`best_bid = bids[0][0]` and `best_ask = asks[0][0]` when the sides are
non-empty; when both are present `spread = best_ask - best_bid` and
`midpoint = (best_ask + best_bid) / 2`, otherwise both stay `None`. -/
def extract_orderbook_tuple (token_id : String) (book : OrderBook) :
    OrderbookTuple :=
  let best_bid := book.bids.head?.map OrderLevel.price
  let best_ask := book.asks.head?.map OrderLevel.price
  match best_bid, best_ask with
  | some bb, some ba =>
      { token_id := token_id, bids := book.bids, asks := book.asks
        spread := some (ba - bb), midpoint := some ((ba + bb) / 2) }
  | _, _ =>
      { token_id := token_id, bids := book.bids, asks := book.asks
        spread := none, midpoint := none }

/-- Bid levels ordered by descending price. -/
def bidsSortedDesc (levels : List OrderLevel) : Prop :=
  levels.Pairwise (fun a b => b.price ≤ a.price)

/-- Ask levels ordered by ascending price. -/
def asksSortedAsc (levels : List OrderLevel) : Prop :=
  levels.Pairwise (fun a b => a.price ≤ b.price)

/-! ## Daemon crash supervision (src/collector/daemon.py) -/

/-- `_max_restarts = 5` (daemon.py line 74). -/
def monitorMaxRestarts : ℕ := 5

/-- `_base_restart_delay = 5.0` (daemon.py line 75). -/
def monitorBaseDelay : ℚ := 5

/-- `_max_restart_delay = 60.0` (daemon.py line 76). -/
def monitorMaxDelay : ℚ := 60

/-- What `_monitor_tasks` does to one crashed slot. -/
inductive CrashAction where
  | restartAfter (delay : ℚ)
  | critical
deriving DecidableEq

/-- The crash-handling branch of `_monitor_tasks` (daemon.py lines
168-210) for a slot with current restart count `count`: at or beyond
`_max_restarts` log CRITICAL and leave the slot dead (count unchanged);
otherwise sleep `min(base * 2 ** count, cap)` seconds, recreate the
task and set the count to `count + 1`. -/
def monitor_handle_crash (count : ℕ) : CrashAction × ℕ :=
  if monitorMaxRestarts ≤ count then (.critical, count)
  else
    (.restartAfter (min (monitorBaseDelay * 2 ^ count) monitorMaxDelay),
     count + 1)

/-! ## Trade inserts (src/db/queries/trades.py) -/

/-- A row of the `trades` hypertable
`(ts, token_id, side, price, size, trade_id)`. -/
structure TradeRow where
  ts : ℕ
  token_id : String
  side : String
  price : ℚ
  size : ℚ
  trade_id : Option String
deriving DecidableEq

/-- Modelled from the spec: the partial unique index
`idx_trades_trade_id` (unique, `WHERE trade_id IS NOT NULL`) on the
`trades` hypertable — the migration SQL files are not in the source
tree.  Matching the `ON CONFLICT (trade_id, ts)` clause of
`insert_trades`, a row with a present trade id conflicts with a stored
row having the same `(trade_id, ts)`; rows with absent trade id never
conflict. -/
def tradeConflicts (table : List TradeRow) (r : TradeRow) : Bool :=
  match r.trade_id with
  | none => false
  | some tid =>
      table.any (fun q => decide (q.trade_id = some tid) && decide (q.ts = r.ts))

/-- `pool.copy_records_to_table` on `trades`: rows are appended one by
one inside a single transaction; the first uniqueness violation makes
the whole COPY fail (`asyncpg.UniqueViolationError`), modelled as
`.error ()`. -/
def copy_records_to_table : List TradeRow → List TradeRow →
    Except Unit (List TradeRow)
  | table, [] => .ok table
  | table, r :: rs =>
    if tradeConflicts table r then .error ()
    else copy_records_to_table (table ++ [r]) rs

/-- The fallback `executemany` with
`INSERT ... ON CONFLICT (trade_id, ts) WHERE trade_id IS NOT NULL DO
NOTHING` (trades.py lines 51-59): each row is inserted unless it
conflicts with the rows present at that point. -/
def fallbackInsertTrades : List TradeRow → List TradeRow → List TradeRow
  | table, [] => table
  | table, r :: rs =>
    if tradeConflicts table r then fallbackInsertTrades table rs
    else fallbackInsertTrades (table ++ [r]) rs

/-- `insert_trades` (trades.py lines 21-62): empty batch returns 0;
otherwise try the COPY path and on a uniqueness violation fall back to
per-row inserts ignoring duplicates.  Both paths return the input batch
size.  Total (the duplicate case does not raise to the caller). -/
def insert_trades (table : List TradeRow) (trades : List TradeRow) :
    List TradeRow × ℕ :=
  if trades.isEmpty then (table, 0)
  else
    match copy_records_to_table table trades with
    | .ok t => (t, trades.length)
    | .error _ => (fallbackInsertTrades table trades, trades.length)

/-! ## Market upserts (src/db/queries/markets.py) -/

/-- A row of the `markets` table.  Modelled from the spec: the schema
(migration SQL not in the source tree) keys the table by
`condition_id` and gives it `created_at` / `updated_at` wall-timestamp
columns defaulting to `NOW()` on insert. -/
structure MarketTableRow where
  condition_id : String
  question : String
  slug : Option String
  market_type : Option String
  outcomes : List String
  clob_token_ids : List String
  active : Bool
  closed : Bool
  end_date_iso : Option String
  created_at : ℕ
  updated_at : ℕ
deriving DecidableEq

/-- The nine bind parameters of the `upsert_market` statement, after
the Python-side `dict.get` defaults (markets.py lines 38-46). -/
structure MarketData where
  condition_id : String
  question : String
  slug : Option String
  market_type : Option String
  outcomes : List String
  clob_token_ids : List String
  active : Bool
  closed : Bool
  end_date_iso : Option String

/-- The `DO UPDATE SET` clause of `upsert_market` (markets.py lines
27-36): overwrite the listed columns, set `updated_at = NOW()`, and
leave every other column — in particular `created_at` — untouched. -/
def applyMarketUpdate (r : MarketTableRow) (d : MarketData) (now : ℕ) :
    MarketTableRow :=
  { r with question := d.question, slug := d.slug
           market_type := d.market_type, outcomes := d.outcomes
           clob_token_ids := d.clob_token_ids, active := d.active
           closed := d.closed, end_date_iso := d.end_date_iso
           updated_at := now }

/-- `upsert_market` (markets.py lines 15-47):
`INSERT ... ON CONFLICT (condition_id) DO UPDATE`.  When a row with the
same `condition_id` exists it is updated in place; otherwise a fresh
row is inserted with `created_at = updated_at = now`. -/
def upsert_market (table : List MarketTableRow) (d : MarketData) (now : ℕ) :
    List MarketTableRow :=
  if table.any (fun r => decide (r.condition_id = d.condition_id)) then
    table.map (fun r =>
      if r.condition_id = d.condition_id then applyMarketUpdate r d now else r)
  else
    table ++ [{ condition_id := d.condition_id, question := d.question
                slug := d.slug, market_type := d.market_type
                outcomes := d.outcomes, clob_token_ids := d.clob_token_ids
                active := d.active, closed := d.closed
                end_date_iso := d.end_date_iso
                created_at := now, updated_at := now }]

/-! ## Relationship detection (src/analysis/relationships.py) -/

/-- Generic insertion of `x` into `l`, placing `x` before the first
element `y` with `le x y`.  Used to model the `ORDER BY` / `sorted`
steps of the analysis layer. -/
def insertSorted (le : α → α → Bool) (x : α) : List α → List α
  | [] => [x]
  | y :: ys => if le x y then x :: y :: ys else y :: insertSorted le x ys

/-- Insertion sort with comparator `le` ("goes no later than"). -/
def sortListBy (le : α → α → Bool) : List α → List α
  | [] => []
  | x :: xs => insertSorted le x (sortListBy le xs)

/-- A row of the `markets` table as read by the analysis queries. -/
structure AMarketRow where
  condition_id : String
  slug : Option String
  clob_token_ids : List String
  active : Bool
  closed : Bool
deriving DecidableEq

/-- `MarketGroup` (relationships.py lines 18-34).  The source names the
first field `slug_prefix`; here it is `slug_key`. -/
structure MarketGroup where
  slug_key : String
  condition_ids : List String
  token_ids : List String
deriving DecidableEq

/-- The `_slug_prefix` helper (relationships.py lines 123-133): strip a
trailing `-<digits>` suffix; `rsplit("-", 1)` keeps everything before
the last hyphen.  (Python's `str.isdigit` is restricted here to ASCII
digits; the repository only feeds it ASCII slugs.) -/
def eventKey (slug : String) : String :=
  let ps := slug.splitOn "-"
  let lastPart := ps.getLast?.getD ""
  if 2 ≤ ps.length ∧ lastPart ≠ "" ∧ lastPart.all Char.isDigit then
    String.intercalate "-" ps.dropLast
  else slug

/-- The SQL of `find_same_event_markets` (relationships.py lines
89-99): active, non-closed markets with a slug and a non-empty token
array, ordered by slug. -/
def activeRowsSortedBySlug (rows : List AMarketRow) : List AMarketRow :=
  sortListBy (fun a b => decide ((a.slug.getD "") ≤ (b.slug.getD "")))
    (rows.filter (fun r =>
      r.active && !r.closed && r.slug.isSome && !r.clob_token_ids.isEmpty))

/-- One step of the grouping dict of `find_same_event_markets`
(relationships.py lines 104-114), modelled as an insertion-ordered
association list (Python dicts preserve insertion order). -/
def addToGroups (groups : List (String × MarketGroup)) (key : String)
    (cid : String) (toks : List String) : List (String × MarketGroup) :=
  if groups.any (fun p => decide (p.1 = key)) then
    groups.map (fun p =>
      if p.1 = key then
        (p.1, { p.2 with condition_ids := p.2.condition_ids ++ [cid]
                         token_ids := p.2.token_ids ++ toks })
      else p)
  else groups ++ [(key, ⟨key, [cid], toks⟩)]

/-- `find_same_event_markets` (relationships.py lines 63-120): group
the filtered rows by slug key and keep groups with at least two
markets.  The DB read is passed in as the list of `markets` rows. -/
def find_same_event_markets (dbRows : List AMarketRow) : List MarketGroup :=
  let sortedRows := activeRowsSortedBySlug dbRows
  let groups := sortedRows.foldl
    (fun gs r => addToGroups gs (eventKey (r.slug.getD "")) r.condition_id
      r.clob_token_ids)
    []
  (groups.map Prod.snd).filter (fun g => 2 ≤ g.condition_ids.length)

/-- `Mispricing` (relationships.py lines 37-60). -/
structure Mispricing where
  condition_ids : List String
  yes_sum : ℚ
  deviation : ℚ
  underpriced_token_ids : List String
  overpriced_token_ids : List String
deriving DecidableEq

/-- Assignment `d[k] = v` on an insertion-ordered dict modelled as an
association list: overwrite in place when the key exists, else append. -/
def dictInsert (d : List (String × ℚ)) (k : String) (v : ℚ) :
    List (String × ℚ) :=
  if d.any (fun p => decide (p.1 = k)) then
    d.map (fun p => if p.1 = k then (k, v) else p)
  else d ++ [(k, v)]

/-- One iteration of the `yes_token_prices` loop of `detect_mispricing`
(relationships.py lines 337-353): `continue` on an empty token list,
record `clob_token_ids[0]`'s latest price when one exists. -/
def yesStep (latestPrice : String → Option ℚ) (d : List (String × ℚ))
    (r : AMarketRow) : List (String × ℚ) :=
  match r.clob_token_ids with
  | [] => d
  | yes :: _ =>
    match latestPrice yes with
    | some p => dictInsert d yes p
    | none => d

/-- The `yes_token_prices` dict built by `detect_mispricing`
(relationships.py lines 336-353). -/
def yesTokenPrices (rows : List AMarketRow) (latestPrice : String → Option ℚ) :
    List (String × ℚ) :=
  rows.foldl (yesStep latestPrice) []

/-- `detect_mispricing` (relationships.py lines 294-391).  `dbRows` is
the `markets` table and `latestPrice` the latest-price lookup on
`price_snapshots` (the two `pool` reads of the source). -/
def detect_mispricing (dbRows : List AMarketRow)
    (latestPrice : String → Option ℚ) (event_markets : MarketGroup)
    (tolerance : ℚ) : List Mispricing :=
  let rows := dbRows.filter
    (fun r => event_markets.condition_ids.contains r.condition_id)
  if rows.isEmpty then []
  else
    let yes_token_prices := yesTokenPrices rows latestPrice
    if yes_token_prices.isEmpty then []
    else
      let yes_sum := (yes_token_prices.map Prod.snd).sum
      let deviation := yes_sum - 1
      if |deviation| ≤ tolerance then []
      else
        let all_tokens := yes_token_prices.map Prod.fst
        if deviation < 0 then
          [{ condition_ids := event_markets.condition_ids
             yes_sum := yes_sum, deviation := deviation
             underpriced_token_ids := all_tokens, overpriced_token_ids := [] }]
        else
          [{ condition_ids := event_markets.condition_ids
             yes_sum := yes_sum, deviation := deviation
             underpriced_token_ids := [], overpriced_token_ids := all_tokens }]

/-! ## Signal generation (src/analysis/signals.py) -/

/-- `MarketSignal` (signals.py lines 28-58); the generation timestamp
is omitted. -/
structure MarketSignal where
  market_id : String
  signal_type : String
  direction : String
  strength : ℚ
  edge_pct : ℚ
  token_id : String
deriving DecidableEq

/-- The `SELECT condition_id FROM markets WHERE $1 = ANY(clob_token_ids)
LIMIT 1` lookup used by all three generators, defaulting to
`"unknown"`.  (The SQL row order is unspecified; the first matching row
of the modelled table stands for the one the database returns.) -/
def lookupMarketId (dbRows : List AMarketRow) (token : String) : String :=
  match dbRows.find? (fun r => r.clob_token_ids.contains token) with
  | some r => r.condition_id
  | none => "unknown"

/-- The per-mispricing emission of `generate_same_event_signals`
(signals.py lines 86-125): BUY every underpriced token when the
deviation is negative, SELL every overpriced token otherwise;
`strength = min(|d| * 10, 1)`, `edge_pct = |d| * 100`. -/
def signalsOfMispricing (dbRows : List AMarketRow) (mp : Mispricing) :
    List MarketSignal :=
  let strength := min (|mp.deviation| * 10) 1
  let edge_pct := |mp.deviation| * 100
  let toks :=
    if mp.deviation < 0 then mp.underpriced_token_ids.map (fun t => (t, "buy"))
    else mp.overpriced_token_ids.map (fun t => (t, "sell"))
  toks.map (fun td =>
    { market_id := lookupMarketId dbRows td.1, signal_type := "same_event"
      direction := td.2, strength := strength, edge_pct := edge_pct
      token_id := td.1 })

/-- `generate_same_event_signals` (signals.py lines 61-128) with the
default `tolerance = 0.02` of `detect_mispricing`. -/
def generate_same_event_signals (dbRows : List AMarketRow)
    (latestPrice : String → Option ℚ) : List MarketSignal :=
  (find_same_event_markets dbRows).flatMap (fun g =>
    (detect_mispricing dbRows latestPrice g (2 / 100)).flatMap
      (signalsOfMispricing dbRows))

/-- One row of the z-score query of `generate_mean_reversion_signals`
(signals.py lines 162-194): per-token latest price, window mean and
window standard deviation (`none` for SQL `NULL`). -/
structure MeanRevRow where
  token_id : String
  latest_price : ℚ
  mean_price : ℚ
  std_price : Option ℚ
deriving DecidableEq

/-- The `z_score` column: `(latest - mean) / std` when `std > 0`, else
0 (the SQL `CASE`, with `NULL` comparisons false); `float(z or 0)` on
the Python side maps `NULL` to 0 as well. -/
def meanRevZ (r : MeanRevRow) : ℚ :=
  match r.std_price with
  | some s => if 0 < s then (r.latest_price - r.mean_price) / s else 0
  | none => 0

/-- `generate_mean_reversion_signals` (signals.py lines 131-230): for
each row with `|z| > z_threshold`, SELL when `z > 0` else BUY,
`strength = min(|z| / (2 * z_threshold), 1)`,
`edge_pct = (|z| - z_threshold) * (std or 0) * 100`. -/
def generate_mean_reversion_signals (dbRows : List AMarketRow)
    (rows : List MeanRevRow) (z_threshold : ℚ) : List MarketSignal :=
  rows.flatMap (fun r =>
    let z := meanRevZ r
    if |z| ≤ z_threshold then []
    else
      [{ market_id := lookupMarketId dbRows r.token_id
         signal_type := "mean_reversion"
         direction := if 0 < z then "sell" else "buy"
         strength := min (|z| / (z_threshold * 2)) 1
         edge_pct := (|z| - z_threshold) * ((r.std_price.getD 0)) * 100
         token_id := r.token_id }])

/-- One row of the latest-order-book query of `generate_spread_signals`
(signals.py lines 258-268); `spread` and `midpoint` are non-NULL by the
`WHERE` clause, and the `midpoint > 0` filter is applied below. -/
structure SpreadRow where
  token_id : String
  spread : ℚ
  midpoint : ℚ
deriving DecidableEq

/-- `generate_spread_signals` (signals.py lines 233-304): for each
latest snapshot with positive midpoint, `edge_pct = spread / midpoint *
100`; when `edge_pct ≥ min_edge_pct` emit BUY with
`strength = min((edge_pct - min_edge_pct) / min_edge_pct, 1)`. -/
def generate_spread_signals (dbRows : List AMarketRow)
    (rows : List SpreadRow) (min_edge_pct : ℚ) : List MarketSignal :=
  (rows.filter (fun r => decide (0 < r.midpoint))).flatMap (fun r =>
    let edge_pct := r.spread / r.midpoint * 100
    if edge_pct < min_edge_pct then []
    else
      [{ market_id := lookupMarketId dbRows r.token_id
         signal_type := "spread", direction := "buy"
         strength := min ((edge_pct - min_edge_pct) / min_edge_pct) 1
         edge_pct := edge_pct, token_id := r.token_id }])

/-- The dedup key `(token_id, signal_type)` (signals.py line 337). -/
def signalKey (s : MarketSignal) : String × String := (s.token_id, s.signal_type)

/-- One step of the dedup dict of `get_all_signals` (signals.py lines
335-339): `best[key] = sig` when the key is new or the new strength is
strictly greater.  With distinct keys (an invariant of the fold) the
first matching entry is the only one, so find-first-update models the
Python dict. -/
def updBest : List ((String × String) × MarketSignal) → MarketSignal →
    List ((String × String) × MarketSignal)
  | [], s => [(signalKey s, s)]
  | p :: ps, s =>
    if p.1 = signalKey s then
      (if p.2.strength < s.strength then (p.1, s) else p) :: ps
    else p :: updBest ps s

/-- The full dedup fold over the concatenated generator outputs. -/
def dedupBest (raw : List MarketSignal) :
    List ((String × String) × MarketSignal) :=
  raw.foldl updBest []

/-- `get_all_signals` (signals.py lines 307-341) as a function of the
three generator outputs: concatenate, deduplicate keeping the
highest-strength signal per `(token_id, signal_type)`, and sort by
strength descending (`sorted(..., reverse=True)`). -/
def get_all_signals (same_event mean_rev spread : List MarketSignal) :
    List MarketSignal :=
  sortListBy (fun a b => decide (b.strength ≤ a.strength))
    ((dedupBest (same_event ++ mean_rev ++ spread)).map Prod.snd)

/-- The YES token of a market row: `clob_token_ids[0]` ("" when the
row has no tokens — `detect_mispricing` skips such rows). -/
def yesTok (r : AMarketRow) : String := r.clob_token_ids.headD ""

/-- The signal schema of the spec: known type, buy/sell direction,
strength in [0, 1], non-negative edge, non-empty token and market
ids. -/
def signalOK (s : MarketSignal) : Prop :=
  (s.signal_type = "same_event" ∨ s.signal_type = "mean_reversion" ∨
    s.signal_type = "spread") ∧
  (s.direction = "buy" ∨ s.direction = "sell") ∧
  0 ≤ s.strength ∧ s.strength ≤ 1 ∧ 0 ≤ s.edge_pct ∧
  s.token_id ≠ "" ∧ s.market_id ≠ ""

/-! ## Concrete instances used by witnesses and counterexamples -/

/-- The three-outcome resolved market of the spec's scenario 2:
`outcomes=["A","B","C"]`, `clobTokenIds=["t1","t2","t3"]`,
`outcomePrices=["0","0","1"]`. -/
def c1Market : RawMarket :=
  { conditionId := .pstr "0xc1" none none
    outcomePrices := .pstr "[\"0\", \"0\", \"1\"]" none
      (some (.plist [.pstr "0" (some 0) none, .pstr "0" (some 0) none,
                     .pstr "1" (some 1) none]))
    outcomes := .pstr "[\"A\", \"B\", \"C\"]" none
      (some (.plist [.pstr "A" none none, .pstr "B" none none,
                     .pstr "C" none none]))
    clobTokenIds := .pstr "[\"t1\", \"t2\", \"t3\"]" none
      (some (.plist [.pstr "t1" none none, .pstr "t2" none none,
                     .pstr "t3" none none])) }

/-- A one-level order book whose bid side crosses the ask side: each
side is trivially sorted, yet best_bid (0.9) exceeds best_ask (0.5). -/
def c5CrossedBook : OrderBook :=
  { bids := [{ price := 9 / 10, size := 1 }]
    asks := [{ price := 1 / 2, size := 1 }] }

/-- A regular two-sided book: best_bid 0.50, best_ask 0.51. -/
def c5Book : OrderBook :=
  { bids := [{ price := 1 / 2, size := 10 }]
    asks := [{ price := 51 / 100, size := 5 }] }

/-- A market whose JSON fields parse but whose only price entry,
`"abc"`, is not numeric: `float("abc")` raises. -/
def c3BadPriceMarket : GammaMarket :=
  { clobTokenIds := some (.pstr "[\"t\"]" none
      (some (.plist [.pstr "t" none none])))
    outcomePrices := some (.pstr "[\"abc\"]" none
      (some (.plist [.pstr "abc" none none])))
    volume24hr := some (.pnum 100) }

/-- A well-formed two-token market: prices 0.5/0.5, no volume field. -/
def c3GoodMarket : GammaMarket :=
  { clobTokenIds := some (.pstr "[\"g1\", \"g2\"]" none
      (some (.plist [.pstr "g1" none none, .pstr "g2" none none])))
    outcomePrices := some (.pstr "[\"0.5\", \"0.5\"]" none
      (some (.plist [.pstr "0.5" (some (1 / 2)) none,
                     .pstr "0.5" (some (1 / 2)) none])))
    volume24hr := none }

/-- A market whose `clobTokenIds` is not valid JSON. -/
def c3SkipMarket : GammaMarket :=
  { clobTokenIds := some (.pstr "not valid json" none none)
    outcomePrices := some (.pstr "[\"0.5\"]" none
      (some (.plist [.pstr "0.5" (some (1 / 2)) none])))
    volume24hr := some (.pnum 100) }

/-- Two active same-event markets with distinct YES tokens `A`, `B`. -/
def c2WitRows : List AMarketRow :=
  [{ condition_id := "c1", slug := some "evt-1", clob_token_ids := ["A"]
     active := true, closed := false },
   { condition_id := "c2", slug := some "evt-2", clob_token_ids := ["B"]
     active := true, closed := false }]

/-- Latest prices for the witness tokens (integer-valued to keep
kernel evaluation cheap). -/
def c2WitPrice : String → Option ℚ :=
  fun t => if t = "A" then some 2 else if t = "B" then some 3 else none

/-- The witness group holding both markets. -/
def c2WitGroup : MarketGroup :=
  { slug_key := "evt", condition_ids := ["c1", "c2"], token_ids := ["A", "B"] }

/-- Two same-event markets SHARING the YES token `A`. -/
def c2DupRows : List AMarketRow :=
  [{ condition_id := "c1", slug := some "evt-1", clob_token_ids := ["A"]
     active := true, closed := false },
   { condition_id := "c2", slug := some "evt-2", clob_token_ids := ["A"]
     active := true, closed := false }]

/-- Latest price of the shared token `A`. -/
def c2DupPrice : String → Option ℚ :=
  fun t => if t = "A" then some 3 else none

/-- The group holding both duplicate-token markets. -/
def c2DupGroup : MarketGroup :=
  { slug_key := "evt", condition_ids := ["c1", "c2"], token_ids := ["A", "A"] }

/-- A trade row with a present trade id. -/
def c9RowA : TradeRow :=
  { ts := 0, token_id := "tok", side := "BUY", price := 11 / 20, size := 10
    trade_id := some "dup_trade_001" }

/-- A trade row with an absent trade id (as produced by the WebSocket
trade listener, which sets `trade_id = None` on every event). -/
def c9RowB : TradeRow :=
  { ts := 1, token_id := "tok", side := "SELL", price := 14 / 25, size := 20
    trade_id := none }

/-- A second trade row with a present trade id. -/
def c9RowC : TradeRow :=
  { ts := 1, token_id := "tok", side := "SELL", price := 14 / 25, size := 20
    trade_id := some "dup_trade_002" }

/-- A pre-existing market row (created at time 17). -/
def c10Row : MarketTableRow :=
  { condition_id := "0xabc", question := "Will X happen?"
    slug := some "will-x-happen", market_type := some "binary"
    outcomes := ["Yes", "No"], clob_token_ids := ["t1", "t2"]
    active := true, closed := false, end_date_iso := some "2026-03-01"
    created_at := 17, updated_at := 17 }

/-- Fresh metadata for the same `condition_id`. -/
def c10Data : MarketData :=
  { condition_id := "0xabc", question := "Will X still happen?"
    slug := some "will-x-still-happen", market_type := some "binary"
    outcomes := ["Yes", "No"], clob_token_ids := ["t1", "t2"]
    active := true, closed := true, end_date_iso := some "2026-03-02" }

/-- A first spread signal on token `t1` (integer-valued fields keep
kernel evaluation cheap). -/
def c6Sig1 : MarketSignal :=
  { market_id := "m1", signal_type := "spread", direction := "buy"
    strength := 1, edge_pct := 5, token_id := "t1" }

/-- A stronger spread signal on the same token `t1`. -/
def c6Sig2 : MarketSignal :=
  { market_id := "m1", signal_type := "spread", direction := "buy"
    strength := 2, edge_pct := 8, token_id := "t1" }

/-- A same-event signal on token `t2`. -/
def c6Sig3 : MarketSignal :=
  { market_id := "m2", signal_type := "same_event", direction := "buy"
    strength := 3, edge_pct := 3, token_id := "t2" }

/-- An upstream that answers every attempt with HTTP 429 and
`Retry-After: 100`. -/
def c4Call429 : ℕ → CallResult := fun _ => .statusErr 429 (some (some 100))

/-- An upstream that fails retryably on the first attempt and then
succeeds. -/
def c4WitnessCall : ℕ → CallResult :=
  fun a => if a = 1 then .retryableExn else .success

end PolyStat

/-! # Theorems -/

namespace PolyStat

/-- A nonempty list is not `isEmpty`. -/
lemma isEmpty_eq_false_of_lt_length {l : List α} {i : ℕ} (hi : i < l.length) :
    l.isEmpty = false := by
  cases l with
  | nil => simp at hi
  | cons x xs => rfl

/-- C1 (amended): for every raw market whose parsed `outcomePrices`
has a first entry converting to float 1.0 at index `i`, `infer_winner`
returns the record aligned at index `i` — with `outcome` and
`winner_token_id` the i-th entries of the parsed `outcomes` and
`clobTokenIds` when those exist (and `None` otherwise), `payout_price`
1.0 and `detection_method` `"gamma_api_polling"` (not `"polling"` as
the claim states); when no entry converts to 1.0 — in particular when
`outcomePrices` is missing or malformed, so that it parses to the
empty list — it returns `none`.  The function is total, so it never
raises. -/
theorem C1_infer_winner_amended (m : RawMarket) :
    (∀ (i : ℕ) (hi : i < (parse_json_field m.outcomePrices).length),
      pyFloat ((parse_json_field m.outcomePrices).get ⟨i, hi⟩) = some 1 →
      (∀ j (hj : j < i),
        pyFloat ((parse_json_field m.outcomePrices).get ⟨j, Nat.lt_trans hj hi⟩)
          ≠ some 1) →
      infer_winner m = some
        { condition_id := marketConditionId m
          outcome := (parse_json_field m.outcomes).get? i
          winner_token_id := (parse_json_field m.clobTokenIds).get? i
          payout_price := 1
          detection_method := "gamma_api_polling" }) ∧
    ((∀ p ∈ parse_json_field m.outcomePrices, pyFloat p ≠ some 1) →
      infer_winner m = none) := by
  constructor
  · intro i hi hwin hfirst
    have hfind : (parse_json_field m.outcomePrices).findIdx?
        (fun p => decide (pyFloat p = some 1)) = some i := by
      rw [List.findIdx?_eq_some_iff_getElem]
      refine ⟨hi, by simpa using hwin, ?_⟩
      intro j hj
      simpa using hfirst j hj
    unfold infer_winner
    simp only [isEmpty_eq_false_of_lt_length hi, Bool.false_eq_true,
      if_false, hfind]
  · intro hnone
    have hfind : (parse_json_field m.outcomePrices).findIdx?
        (fun p => decide (pyFloat p = some 1)) = none := by
      rw [List.findIdx?_eq_none_iff]
      intro x hx
      simpa using hnone x hx
    unfold infer_winner
    cases he : (parse_json_field m.outcomePrices).isEmpty
    · simp only [he, Bool.false_eq_true, if_false, hfind]
    · simp only [he, if_true]

/-- C1 witness: on the spec's three-outcome scenario the amended
theorem yields outcome "C", token "t3", payout 1.0 and detection
method `"gamma_api_polling"`. -/
theorem C1_witness :
    infer_winner c1Market = some
      { condition_id := .pstr "0xc1" none none
        outcome := some (.pstr "C" none none)
        winner_token_id := some (.pstr "t3" none none)
        payout_price := 1
        detection_method := "gamma_api_polling" } :=
  (C1_infer_winner_amended c1Market).1 2 (by decide) (by decide)
    (by decide)

/-- C1 counterexample to the claim as stated: the record returned for
the resolved scenario market carries `detection_method =
"gamma_api_polling"`, which is not the claimed `"polling"`. -/
theorem C1_counterexample :
    (infer_winner c1Market).map ResolutionData.detection_method =
      some "gamma_api_polling" ∧
    ("gamma_api_polling" : String) ≠ "polling" := by
  exact ⟨rfl, by decide⟩

/-- C5 (amended): the snapshot tuple satisfies the claimed equalities —
`spread = best_ask − best_bid`, `midpoint = (best_ask + best_bid) / 2`
when both sides are non-empty, both absent when either side is empty —
and the spread is non-negative exactly under the additional hypothesis
that the book is not crossed (`best_bid ≤ best_ask`); descending bids
and ascending asks alone do not give `spread ≥ 0`. -/
theorem C5_orderbook_tuple_amended (token_id : String) (book : OrderBook) :
    ((book.bids = [] ∨ book.asks = []) →
      (extract_orderbook_tuple token_id book).spread = none ∧
      (extract_orderbook_tuple token_id book).midpoint = none) ∧
    (∀ b bs a tailAsks, book.bids = b :: bs → book.asks = a :: tailAsks →
      (extract_orderbook_tuple token_id book).spread = some (a.price - b.price) ∧
      (extract_orderbook_tuple token_id book).midpoint =
        some ((a.price + b.price) / 2) ∧
      (b.price ≤ a.price →
        ∀ s, (extract_orderbook_tuple token_id book).spread = some s → 0 ≤ s)) := by
  constructor
  · rintro (hb | ha)
    · rw [show book = { bids := book.bids, asks := book.asks } from rfl, hb]
      cases book.asks <;> simp [extract_orderbook_tuple]
    · rw [show book = { bids := book.bids, asks := book.asks } from rfl, ha]
      cases book.bids <;> simp [extract_orderbook_tuple]
  · intro b bs a tailAsks hb ha
    rw [show book = { bids := book.bids, asks := book.asks } from rfl, hb, ha]
    refine ⟨by simp [extract_orderbook_tuple], by simp [extract_orderbook_tuple], ?_⟩
    intro hle s hs
    simp only [extract_orderbook_tuple, List.head?_cons, Option.map_some] at hs
    obtain rfl : a.price - b.price = s := by simpa using hs
    exact sub_nonneg.mpr hle

/-- C5 witness: on a 0.50/0.51 book the amended theorem gives
`spread = 0.01 ≥ 0` and `midpoint = 0.505`. -/
theorem C5_witness :
    (extract_orderbook_tuple "tok" c5Book).spread = some (1 / 100) ∧
    (extract_orderbook_tuple "tok" c5Book).midpoint = some (101 / 200) ∧
    (0 : ℚ) ≤ 1 / 100 := by
  have h := (C5_orderbook_tuple_amended "tok" c5Book).2
    { price := 1 / 2, size := 10 } [] { price := 51 / 100, size := 5 } [] rfl rfl
  refine ⟨?_, ?_, by norm_num⟩
  · rw [h.1]; norm_num
  · rw [h.2.1]; norm_num

/-- C5 counterexample to the claim as stated: a book whose single bid
level and single ask level are (trivially) sorted descending
respectively ascending, yet whose spread is −0.4 < 0: per-side
ordering does not exclude a crossed book. -/
theorem C5_counterexample :
    bidsSortedDesc c5CrossedBook.bids ∧ asksSortedAsc c5CrossedBook.asks ∧
    c5CrossedBook.bids ≠ [] ∧ c5CrossedBook.asks ≠ [] ∧
    (extract_orderbook_tuple "tok" c5CrossedBook).spread = some (-(2 / 5)) ∧
    ¬ (0 : ℚ) ≤ -(2 / 5) := by
  refine ⟨?_, ?_, ?_, ?_, ?_, by norm_num⟩
  · simp [bidsSortedDesc, c5CrossedBook]
  · simp [asksSortedAsc, c5CrossedBook]
  · simp [c5CrossedBook]
  · simp [c5CrossedBook]
  · show (extract_orderbook_tuple "tok" c5CrossedBook).spread = some (-(2 / 5))
    simp [extract_orderbook_tuple, c5CrossedBook]
    norm_num

/-- Skipping a market (`.ok none`) leaves the extraction of the
surrounding markets unchanged. -/
lemma extractFromMarkets_skip (A B : List GammaMarket) (m : GammaMarket)
    (hm : processMarket m = .ok none) :
    extractFromMarkets (A ++ m :: B) = extractFromMarkets (A ++ B) := by
  induction A with
  | nil =>
    cases hB : extractFromMarkets B <;>
      simp [extractFromMarkets, hm, hB]
  | cons x A ih =>
    simp only [List.cons_append, extractFromMarkets, List.append_eq]
    rw [ih]

/-- An exception from any market aborts the whole extraction. -/
lemma extractFromMarkets_error (ms : List GammaMarket) (m : GammaMarket)
    (hmem : m ∈ ms) (hm : processMarket m = .error ()) :
    extractFromMarkets ms = .error () := by
  induction ms with
  | nil => simp at hmem
  | cons x rest ih =>
    rcases List.mem_cons.mp hmem with rfl | hmem2
    · simp [extractFromMarkets, hm]
    · cases hx : processMarket x with
      | error e => cases e; simp [extractFromMarkets, hx]
      | ok v =>
        simp [extractFromMarkets, hx, ih hmem2]

/-- Malformed JSON in either field makes `processMarket` skip. -/
lemma processMarket_skip_of_bad_json (m : GammaMarket)
    (h : jsonLoads (m.clobTokenIds.getD emptyPyStr) = .error () ∨
         jsonLoads (m.outcomePrices.getD emptyPyStr) = .error ()) :
    processMarket m = .ok none := by
  rcases h with h | h
  · simp [processMarket, h]
  · cases hc : jsonLoads (m.clobTokenIds.getD emptyPyStr) with
    | error e => cases e; simp [processMarket, hc]
    | ok v => cases v <;> simp [processMarket, hc, h]

/-- C3 (amended): in one price-collection cycle, a market whose
`clobTokenIds` or `outcomePrices` is malformed JSON is skipped while
every other market still yields its tuples; but a market with a
non-numeric price entry (or any other exception inside the extraction)
aborts the whole cycle: `collect_once` catches the exception and
returns 0 with no tuples bulk-copied — other markets of that cycle are
NOT inserted, contrary to the claim.  When extraction succeeds, all
extracted tuples are bulk-copied and their count returned.
`collect_once` itself never raises (it is total). -/
theorem C3_price_cycle_amended :
    (∀ (A B : List GammaMarket) (m : GammaMarket),
      jsonLoads (m.clobTokenIds.getD emptyPyStr) = .error () ∨
      jsonLoads (m.outcomePrices.getD emptyPyStr) = .error () →
      extractFromMarkets (A ++ m :: B) = extractFromMarkets (A ++ B)) ∧
    (∀ (events : List (List GammaMarket)) (m : GammaMarket),
      m ∈ events.flatten → processMarket m = .error () →
      price_collect_once events = (0, [])) ∧
    (∀ (events : List (List GammaMarket)) (ts : List PriceTuple),
      extract_price_tuples events = .ok ts →
      price_collect_once events = (ts.length, ts)) := by
  refine ⟨?_, ?_, ?_⟩
  · intro A B m hm
    exact extractFromMarkets_skip A B m (processMarket_skip_of_bad_json m hm)
  · intro events m hmem hm
    have herr : extract_price_tuples events = .error () :=
      extractFromMarkets_error events.flatten m hmem hm
    simp [price_collect_once, herr]
  · intro events ts hts
    simp [price_collect_once, hts]

/-- C3 witness: a malformed-JSON market is skipped with the good
market still processed, while a non-numeric price aborts its cycle. -/
theorem C3_witness :
    extractFromMarkets [c3SkipMarket, c3GoodMarket] =
      extractFromMarkets [c3GoodMarket] ∧
    price_collect_once [[c3BadPriceMarket]] = (0, []) := by
  have h := C3_price_cycle_amended
  constructor
  · exact h.1 [] [c3GoodMarket] c3SkipMarket (Or.inl rfl)
  · exact h.2.1 [[c3BadPriceMarket]] c3BadPriceMarket (by simp) rfl

/-- C3 counterexample to the claim as stated: a cycle containing a
market with the non-numeric price entry `"abc"` next to a well-formed
market inserts nothing at all — the well-formed market's two tuples,
which the same market alone would yield, are lost. -/
theorem C3_counterexample :
    price_collect_once [[c3BadPriceMarket, c3GoodMarket]] = (0, []) ∧
    price_collect_once [[c3GoodMarket]] =
      (2, [("g1", 1 / 2, 0), ("g2", 1 / 2, 0)]) := by
  exact ⟨rfl, rfl⟩

/-- Every `(attempt, delay)` sleep recorded by the retry loop comes
from a retryable exception (backoff formula) or a retryable HTTP
status (`_delay_for_status`). -/
lemma retryAux_sleep_mem (f : ℕ → CallResult) (base expB maxD : ℚ) :
    ∀ (rem attempt a : ℕ) (d : ℚ),
      (a, d) ∈ (retryAux f base expB maxD attempt rem).2 →
      (f a = .retryableExn ∧ d = retryBackoffDelay base expB a maxD) ∨
      (∃ c ra, f a = .statusErr c ra ∧ is_retryable_status c = true ∧
        d = delay_for_status c ra base expB a maxD) := by
  intro rem
  induction rem with
  | zero => intro attempt a d h; simp [retryAux] at h
  | succ rem ih =>
    intro attempt a d h
    cases hf : f attempt with
    | success => simp [retryAux, hf] at h
    | fatalExn => simp [retryAux, hf] at h
    | otherExn => simp [retryAux, hf] at h
    | retryableExn =>
      by_cases hr : rem = 0
      · simp [retryAux, hf, hr] at h
      · simp only [retryAux, hf, hr, if_false] at h
        rcases List.mem_cons.mp h with heq | hmem
        · obtain ⟨ha, hd⟩ := Prod.mk.injEq .. ▸ heq
          subst ha
          exact Or.inl ⟨hf, by simpa using hd⟩
        · exact ih (attempt + 1) a d hmem
    | statusErr c ra =>
      by_cases hc : is_retryable_status c
      · by_cases hr : rem = 0
        · simp [retryAux, hf, hc, hr] at h
        · simp only [retryAux, hf, hc, hr, if_true, if_false] at h
          rcases List.mem_cons.mp h with heq | hmem
          · obtain ⟨ha, hd⟩ := Prod.mk.injEq .. ▸ heq
            subst ha
            exact Or.inr ⟨c, ra, hf, hc, by simpa using hd⟩
          · exact ih (attempt + 1) a d hmem
      · simp [retryAux, hf, hc] at h

/-- C4 (amended): a sleep of duration `d` before retrying after a
failed attempt `a` satisfies: after a retryable exception,
`d = min(base_delay · exponential_base^(a−1), max_delay)`; after a
retryable HTTP status, `d` is computed by `_delay_for_status` — in
particular for a 429 carrying a parseable `Retry-After` hint `h`,
`d = min(h, max_delay)`, which is at least `h` only when
`h ≤ max_delay`; a hint above `max_delay` is capped, so the claim's
"sleep at least `h`" fails in that case. -/
theorem C4_retry_delay_amended (f : ℕ → CallResult) (max_attempts : ℕ)
    (base expB maxD : ℚ) (a : ℕ) (d : ℚ)
    (h : (a, d) ∈ (retry_run f max_attempts base expB maxD).2) :
    ((f a = .retryableExn ∧ d = retryBackoffDelay base expB a maxD) ∨
     (∃ c ra, f a = .statusErr c ra ∧ is_retryable_status c = true ∧
       d = delay_for_status c ra base expB a maxD)) ∧
    (∀ hint : ℚ, f a = .statusErr 429 (some (some hint)) →
      d = min hint maxD ∧ (hint ≤ maxD → hint ≤ d)) := by
  have hmain := retryAux_sleep_mem f base expB maxD max_attempts 1 a d h
  refine ⟨hmain, ?_⟩
  intro hint hfa
  rcases hmain with ⟨hex, _⟩ | ⟨c, ra, hst, _, hd⟩
  · rw [hfa] at hex; exact absurd hex (by simp)
  · rw [hfa] at hst
    obtain ⟨rfl, rfl⟩ : c = 429 ∧ ra = some (some hint) := by
      have h1 := congrArg (fun r => match r with
        | CallResult.statusErr c _ => c
        | _ => 0) hst
      have h2 := congrArg (fun r => match r with
        | CallResult.statusErr _ ra => ra
        | _ => none) hst
      exact ⟨h1.symm, h2.symm⟩
    have hdv : d = min hint maxD := by
      simpa [delay_for_status] using hd
    exact ⟨hdv, fun hle => by rw [hdv]; exact le_min le_rfl hle⟩

/-- C4 witness: with base 1, exponential base 2, cap 30, a retryable
exception on attempt 1 sleeps exactly the backoff formula value. -/
theorem C4_witness : (1 : ℚ) = retryBackoffDelay 1 2 1 30 := by
  have hmem : ((1 : ℕ), (1 : ℚ)) ∈ (retry_run c4WitnessCall 3 1 2 30).2 := by
    have hrun : (retry_run c4WitnessCall 3 1 2 30).2 = [(1, 1)] := by
      norm_num [retry_run, retryAux, c4WitnessCall, retryBackoffDelay, min_def]
    rw [hrun]; simp
  have h := C4_retry_delay_amended c4WitnessCall 3 1 2 30 1 1 hmem
  rcases h.1 with ⟨_, hd⟩ | ⟨c, ra, hfa, _, _⟩
  · exact hd
  · exact absurd hfa (by simp [c4WitnessCall])

/-- C4 counterexample to the claim as stated: every attempt gets HTTP
429 with `Retry-After: 100` under `base_delay = 1`,
`exponential_base = 2`, `max_delay = 30`; the sleep after attempt 1 is
30 — neither the claimed backoff value
`min(base · 2⁰, max_delay) = 1` nor at least the hint 100. -/
theorem C4_counterexample :
    (retry_run c4Call429 3 1 2 30).2 = [(1, 30), (2, 30)] ∧
    retryBackoffDelay 1 2 1 30 = 1 ∧
    ((30 : ℚ) ≠ 1) ∧ ¬ ((100 : ℚ) ≤ 30) := by
  refine ⟨?_, ?_, by norm_num, by norm_num⟩
  · norm_num [retry_run, retryAux, c4Call429, delay_for_status,
      is_retryable_status, RETRYABLE_STATUS_CODES, min_def]
  · norm_num [retryBackoffDelay, min_def]

/-- Membership in an insertion-sorted list. -/
lemma mem_insertSorted (le : α → α → Bool) (x a : α) (l : List α) :
    a ∈ insertSorted le x l ↔ a = x ∨ a ∈ l := by
  induction l with
  | nil => simp [insertSorted]
  | cons y ys ih =>
    unfold insertSorted
    by_cases h : le x y = true
    · simp [h, List.mem_cons]
    · rw [if_neg h]
      simp only [List.mem_cons, ih]
      tauto

/-- Insertion produces a permutation of consing. -/
lemma insertSorted_perm (le : α → α → Bool) (x : α) (l : List α) :
    List.Perm (insertSorted le x l) (x :: l) := by
  induction l with
  | nil => exact List.Perm.refl _
  | cons y ys ih =>
    unfold insertSorted
    by_cases h : le x y = true
    · simp [h]
    · rw [if_neg h]
      exact (ih.cons y).trans (List.Perm.swap x y ys)

/-- Insertion sort permutes its input. -/
lemma sortListBy_perm (le : α → α → Bool) (l : List α) :
    List.Perm (sortListBy le l) l := by
  induction l with
  | nil => exact List.Perm.refl _
  | cons x xs ih =>
    exact (insertSorted_perm le x (sortListBy le xs)).trans (ih.cons x)

/-- Insertion preserves sortedness for a total transitive comparator. -/
lemma pairwise_insertSorted (le : α → α → Bool)
    (htot : ∀ a b, le a b = false → le b a = true)
    (htrans : ∀ a b c, le a b = true → le b c = true → le a c = true)
    (x : α) (l : List α) (hl : l.Pairwise (fun a b => le a b = true)) :
    (insertSorted le x l).Pairwise (fun a b => le a b = true) := by
  induction l with
  | nil => simp [insertSorted]
  | cons y ys ih =>
    rcases List.pairwise_cons.mp hl with ⟨hy, hys⟩
    unfold insertSorted
    by_cases h : le x y = true
    · rw [if_pos h]
      refine List.pairwise_cons.mpr ⟨?_, hl⟩
      intro b hb
      rcases List.mem_cons.mp hb with rfl | hb2
      · exact h
      · exact htrans x y b h (hy b hb2)
    · rw [if_neg h]
      refine List.pairwise_cons.mpr ⟨?_, ih hys⟩
      intro b hb
      rcases (mem_insertSorted le x b ys).mp hb with rfl | hb2
      · exact htot b y (by simpa using h)
      · exact hy b hb2

/-- Insertion sort sorts, for a total transitive comparator. -/
lemma pairwise_sortListBy (le : α → α → Bool)
    (htot : ∀ a b, le a b = false → le b a = true)
    (htrans : ∀ a b c, le a b = true → le b c = true → le a c = true)
    (l : List α) :
    (sortListBy le l).Pairwise (fun a b => le a b = true) := by
  induction l with
  | nil => simp [sortListBy]
  | cons x xs ih => exact pairwise_insertSorted le htot htrans x _ ih

/-- Every entry of `updBest best s` is an old entry or carries `s`
under its key. -/
lemma mem_updBest (best : List ((String × String) × MarketSignal))
    (s : MarketSignal) :
    ∀ p ∈ updBest best s, p ∈ best ∨ (p.1 = signalKey s ∧ p.2 = s) := by
  induction best with
  | nil =>
    intro p hp
    simp only [updBest, List.mem_singleton] at hp
    exact Or.inr (by simp [hp])
  | cons q qs ih =>
    intro p hp
    unfold updBest at hp
    by_cases hk : q.1 = signalKey s
    · rw [if_pos hk] at hp
      rcases List.mem_cons.mp hp with rfl | hp2
      · by_cases hlt : q.2.strength < s.strength
        · rw [if_pos hlt]
          exact Or.inr ⟨hk, rfl⟩
        · rw [if_neg hlt]
          exact Or.inl (by simp)
      · exact Or.inl (List.mem_cons_of_mem q hp2)
    · rw [if_neg hk] at hp
      rcases List.mem_cons.mp hp with rfl | hp2
      · exact Or.inl (by simp)
      · rcases ih p hp2 with h | h
        · exact Or.inl (List.mem_cons_of_mem q h)
        · exact Or.inr h

/-- `updBest` keeps every old key and covers the key of `s`. -/
lemma updBest_keys_super (best : List ((String × String) × MarketSignal))
    (s : MarketSignal) :
    (∀ p ∈ best, ∃ p2 ∈ updBest best s, p2.1 = p.1) ∧
    (∃ p2 ∈ updBest best s, p2.1 = signalKey s) := by
  induction best with
  | nil => exact ⟨by simp, ⟨(signalKey s, s), by simp [updBest]⟩⟩
  | cons q qs ih =>
    unfold updBest
    by_cases hk : q.1 = signalKey s
    · rw [if_pos hk]
      by_cases hlt : q.2.strength < s.strength
      · rw [if_pos hlt]
        refine ⟨?_, ⟨(q.1, s), by simp, hk⟩⟩
        intro p hp
        rcases List.mem_cons.mp hp with rfl | hp2
        · exact ⟨(p.1, s), by simp, rfl⟩
        · exact ⟨p, by simp [hp2], rfl⟩
      · rw [if_neg hlt]
        refine ⟨?_, ⟨q, by simp, hk⟩⟩
        intro p hp
        exact ⟨p, by simpa using hp, rfl⟩
    · rw [if_neg hk]
      refine ⟨?_, ?_⟩
      · intro p hp
        rcases List.mem_cons.mp hp with rfl | hp2
        · exact ⟨p, by simp⟩
        · obtain ⟨p2, hp2m, hp2k⟩ := ih.1 p hp2
          exact ⟨p2, List.mem_cons_of_mem q hp2m, hp2k⟩
      · obtain ⟨p2, hp2m, hp2k⟩ := ih.2
        exact ⟨p2, List.mem_cons_of_mem q hp2m, hp2k⟩

/-- `updBest` preserves key distinctness. -/
lemma updBest_pairwise (best : List ((String × String) × MarketSignal))
    (s : MarketSignal) (h : best.Pairwise (fun p q => p.1 ≠ q.1)) :
    (updBest best s).Pairwise (fun p q => p.1 ≠ q.1) := by
  induction best with
  | nil => simp [updBest]
  | cons q qs ih =>
    rcases List.pairwise_cons.mp h with ⟨hq, hqs⟩
    unfold updBest
    by_cases hk : q.1 = signalKey s
    · rw [if_pos hk]
      refine List.pairwise_cons.mpr ⟨?_, hqs⟩
      intro p hp
      by_cases hlt : q.2.strength < s.strength
      · rw [if_pos hlt]
        exact hq p hp
      · rw [if_neg hlt]
        exact hq p hp
    · rw [if_neg hk]
      refine List.pairwise_cons.mpr ⟨?_, ih hqs⟩
      intro p hp
      rcases mem_updBest qs s p hp with hold | ⟨hkey, _⟩
      · exact hq p hold
      · rw [hkey]; exact hk

/-- `updBest` preserves key coherence. -/
lemma updBest_coherent (best : List ((String × String) × MarketSignal))
    (s : MarketSignal) (h : ∀ p ∈ best, signalKey p.2 = p.1) :
    ∀ p ∈ updBest best s, signalKey p.2 = p.1 := by
  induction best with
  | nil =>
    intro p hp
    simp only [updBest, List.mem_singleton] at hp
    simp [hp]
  | cons q qs ih =>
    intro p hp
    unfold updBest at hp
    by_cases hk : q.1 = signalKey s
    · rw [if_pos hk] at hp
      rcases List.mem_cons.mp hp with rfl | hp2
      · by_cases hlt : q.2.strength < s.strength
        · rw [if_pos hlt]
          exact hk.symm
        · rw [if_neg hlt]
          exact h q (by simp)
      · exact h p (List.mem_cons_of_mem q hp2)
    · rw [if_neg hk] at hp
      rcases List.mem_cons.mp hp with rfl | hp2
      · exact h p (by simp)
      · exact ih (fun p2 hp2m => h p2 (List.mem_cons_of_mem q hp2m)) p hp2

/-- `updBest` preserves upper bounds over already-processed signals,
provided any processed signal sharing `s`'s key is already covered. -/
lemma updBest_max (processed : List MarketSignal) :
    ∀ (best : List ((String × String) × MarketSignal)) (s : MarketSignal),
      (∀ p ∈ best, ∀ t ∈ processed, signalKey t = p.1 →
        t.strength ≤ p.2.strength) →
      (∀ t ∈ processed, signalKey t = signalKey s →
        ∃ p ∈ best, p.1 = signalKey s) →
      ∀ p ∈ updBest best s, ∀ t ∈ processed, signalKey t = p.1 →
        t.strength ≤ p.2.strength := by
  intro best
  induction best with
  | nil =>
    intro s _ hcov p hp t ht hkey
    simp only [updBest, List.mem_singleton] at hp
    subst hp
    obtain ⟨p2, hp2, _⟩ := hcov t ht (by simpa using hkey)
    simp at hp2
  | cons q qs ih =>
    intro s hmax hcov p hp t ht hkey
    unfold updBest at hp
    by_cases hk : q.1 = signalKey s
    · rw [if_pos hk] at hp
      rcases List.mem_cons.mp hp with rfl | hp2
      · by_cases hlt : q.2.strength < s.strength
        · rw [if_pos hlt] at hkey ⊢
          have := hmax q (by simp) t ht hkey
          exact this.trans (le_of_lt hlt)
        · rw [if_neg hlt] at hkey ⊢
          exact hmax q (by simp) t ht hkey
      · exact hmax p (List.mem_cons_of_mem q hp2) t ht hkey
    · rw [if_neg hk] at hp
      rcases List.mem_cons.mp hp with rfl | hp2
      · exact hmax p (by simp) t ht hkey
      · refine ih s (fun p2 hm => hmax p2 (List.mem_cons_of_mem q hm)) ?_ p hp2 t ht hkey
        intro t2 ht2 hk2
        obtain ⟨p2, hp2m, hp2k⟩ := hcov t2 ht2 hk2
        rcases List.mem_cons.mp hp2m with rfl | hp2m2
        · exact absurd hp2k hk
        · exact ⟨p2, hp2m2, hp2k⟩

/-- The entry kept for `s`'s key is at least as strong as `s`. -/
lemma updBest_new (best : List ((String × String) × MarketSignal))
    (s : MarketSignal) (hdist : best.Pairwise (fun p q => p.1 ≠ q.1)) :
    ∀ p ∈ updBest best s, p.1 = signalKey s → s.strength ≤ p.2.strength := by
  induction best with
  | nil =>
    intro p hp _
    simp only [updBest, List.mem_singleton] at hp
    subst hp
    exact le_refl _
  | cons q qs ih =>
    rcases List.pairwise_cons.mp hdist with ⟨hq, hqs⟩
    intro p hp hkey
    unfold updBest at hp
    by_cases hk : q.1 = signalKey s
    · rw [if_pos hk] at hp
      rcases List.mem_cons.mp hp with rfl | hp2
      · by_cases hlt : q.2.strength < s.strength
        · rw [if_pos hlt]
        · rw [if_neg hlt]
          exact le_of_not_lt hlt
      · exact absurd (hk.trans hkey.symm) (hq p hp2)
    · rw [if_neg hk] at hp
      rcases List.mem_cons.mp hp with rfl | hp2
      · exact absurd hkey hk
      · exact ih hqs p hp2 hkey

/-- The dedup fold maintains: distinct keys, key coherence, values
drawn from the processed signals, per-key maximality, and coverage of
every processed key. -/
lemma dedup_fold_inv :
    ∀ (raw processed : List MarketSignal)
      (best : List ((String × String) × MarketSignal)),
      best.Pairwise (fun p q => p.1 ≠ q.1) →
      (∀ p ∈ best, signalKey p.2 = p.1) →
      (∀ p ∈ best, p.2 ∈ processed) →
      (∀ p ∈ best, ∀ t ∈ processed, signalKey t = p.1 →
        t.strength ≤ p.2.strength) →
      (∀ t ∈ processed, ∃ p ∈ best, p.1 = signalKey t) →
      (raw.foldl updBest best).Pairwise (fun p q => p.1 ≠ q.1) ∧
      (∀ p ∈ raw.foldl updBest best, signalKey p.2 = p.1) ∧
      (∀ p ∈ raw.foldl updBest best, p.2 ∈ processed ++ raw) ∧
      (∀ p ∈ raw.foldl updBest best, ∀ t ∈ processed ++ raw,
        signalKey t = p.1 → t.strength ≤ p.2.strength) ∧
      (∀ t ∈ processed ++ raw, ∃ p ∈ raw.foldl updBest best,
        p.1 = signalKey t) := by
  intro raw
  induction raw with
  | nil =>
    intro processed best h1 h2 h3 h4 h5
    simp only [List.foldl_nil, List.append_nil]
    exact ⟨h1, h2, h3, h4, h5⟩
  | cons s rest ih =>
    intro processed best h1 h2 h3 h4 h5
    have h1s := updBest_pairwise best s h1
    have h2s := updBest_coherent best s h2
    have h3s : ∀ p ∈ updBest best s, p.2 ∈ processed ++ [s] := by
      intro p hp
      rcases mem_updBest best s p hp with hold | ⟨_, hv⟩
      · exact List.mem_append_left _ (h3 p hold)
      · rw [hv]; simp
    have h4s : ∀ p ∈ updBest best s, ∀ t ∈ processed ++ [s],
        signalKey t = p.1 → t.strength ≤ p.2.strength := by
      intro p hp t ht hkey
      rcases List.mem_append.mp ht with htp | hts
      · refine updBest_max processed best s h4 ?_ p hp t htp hkey
        intro t2 ht2 hk2
        obtain ⟨p2, hp2m, hp2k⟩ := h5 t2 ht2
        exact ⟨p2, hp2m, hp2k.trans hk2⟩
      · have hts2 : t = s := by simpa using hts
        rw [hts2] at hkey ⊢
        exact updBest_new best s h1 p hp hkey.symm
    have h5s : ∀ t ∈ processed ++ [s], ∃ p ∈ updBest best s,
        p.1 = signalKey t := by
      intro t ht
      rcases List.mem_append.mp ht with htp | hts
      · obtain ⟨p, hpm, hpk⟩ := h5 t htp
        obtain ⟨p2, hp2m, hp2k⟩ := (updBest_keys_super best s).1 p hpm
        exact ⟨p2, hp2m, hp2k.trans hpk⟩
      · have hts2 : t = s := by simpa using hts
        rw [hts2]
        exact (updBest_keys_super best s).2
    have hrec := ih (processed ++ [s]) (updBest best s) h1s h2s h3s h4s h5s
    simpa [List.append_assoc] using hrec

/-- C6: `get_all_signals` contains at most one signal per
`(token_id, signal_type)` key; each kept signal is one of the
generated signals and has the maximum strength among generated signals
of its key; every generated key is represented; and the list is sorted
by strength descending. -/
theorem C6_get_all_signals_dedup (s1 s2 s3 : List MarketSignal) :
    (get_all_signals s1 s2 s3).Pairwise
      (fun a b => signalKey a ≠ signalKey b) ∧
    (∀ s ∈ get_all_signals s1 s2 s3,
      s ∈ s1 ++ s2 ++ s3 ∧
      ∀ t ∈ s1 ++ s2 ++ s3, signalKey t = signalKey s →
        t.strength ≤ s.strength) ∧
    (∀ t ∈ s1 ++ s2 ++ s3, ∃ s ∈ get_all_signals s1 s2 s3,
      signalKey s = signalKey t) ∧
    (get_all_signals s1 s2 s3).Pairwise
      (fun a b => b.strength ≤ a.strength) := by
  obtain ⟨hdist, hcoh, hmem, hmax, hcov⟩ :=
    dedup_fold_inv (s1 ++ s2 ++ s3) [] [] (by simp) (by simp) (by simp)
      (by simp) (by simp)
  have hout : get_all_signals s1 s2 s3 =
      sortListBy (fun a b => decide (b.strength ≤ a.strength))
        (((s1 ++ s2 ++ s3).foldl updBest []).map Prod.snd) := rfl
  have hperm : List.Perm (get_all_signals s1 s2 s3)
      (((s1 ++ s2 ++ s3).foldl updBest []).map Prod.snd) := by
    rw [hout]; exact sortListBy_perm _ _
  simp only [List.nil_append] at hmem hmax hcov
  refine ⟨?_, ?_, ?_, ?_⟩
  · have hpm : (((s1 ++ s2 ++ s3).foldl updBest []).map Prod.snd).Pairwise
        (fun a b => signalKey a ≠ signalKey b) := by
      rw [List.pairwise_map]
      refine hdist.imp_of_mem ?_
      intro p q hp hq hne
      rw [hcoh p hp, hcoh q hq]
      exact hne
    exact (hperm.pairwise_iff (fun {a b} h heq => h heq.symm)).mpr hpm
  · intro s hs
    have hs2 : s ∈ ((s1 ++ s2 ++ s3).foldl updBest []).map Prod.snd :=
      hperm.mem_iff.mp hs
    obtain ⟨p, hpm, hps⟩ := List.mem_map.mp hs2
    refine ⟨hps ▸ hmem p hpm, ?_⟩
    intro t ht hkey
    have hkp : signalKey s = p.1 := hps ▸ hcoh p hpm
    exact hps ▸ hmax p hpm t ht (hkey.trans hkp)
  · intro t ht
    obtain ⟨p, hpm, hpk⟩ := hcov t ht
    refine ⟨p.2, hperm.mem_iff.mpr (List.mem_map_of_mem Prod.snd hpm), ?_⟩
    rw [hcoh p hpm, hpk]
  · rw [hout]
    have hsorted := pairwise_sortListBy
      (fun a b => decide (b.strength ≤ a.strength))
      (fun a b h => by
        simp only [decide_eq_false_iff_not] at h
        simpa using le_of_not_le h)
      (fun a b c hab hbc => by
        simp only [decide_eq_true_eq] at hab hbc ⊢
        exact hbc.trans hab)
      (((s1 ++ s2 ++ s3).foldl updBest []).map Prod.snd)
    exact hsorted.imp (fun h => by simpa using h)

/-- C6 witness: on concrete signals — two spread signals on token `t1`
with strengths 0.5 and 0.75 plus a same-event signal on `t2` — the
signal kept for `t1` dominates the weaker one, which the theorem
certifies against the generated list. -/
theorem C6_witness :
    c6Sig1.strength ≤ c6Sig2.strength ∧
    c6Sig2 ∈ [c6Sig1, c6Sig2] ++ [] ++ [c6Sig3] := by
  have h := C6_get_all_signals_dedup [c6Sig1, c6Sig2] [] [c6Sig3]
  have hmem : c6Sig2 ∈ get_all_signals [c6Sig1, c6Sig2] [] [c6Sig3] := by
    decide
  have h2 := (h.2.1) c6Sig2 hmem
  exact ⟨h2.2 c6Sig1 (by decide) (by decide), h2.1⟩

/-- `dictInsert` introduces no key other than the inserted one. -/
lemma dictInsert_keys (d : List (String × ℚ)) (k : String) (v : ℚ)
    (k2 : String) (h : k2 ∈ (dictInsert d k v).map Prod.fst) :
    k2 ∈ d.map Prod.fst ∨ k2 = k := by
  unfold dictInsert at h
  by_cases hany : d.any (fun p => decide (p.1 = k)) = true
  · rw [if_pos hany] at h
    obtain ⟨p, hp, hpk⟩ := List.mem_map.mp h
    obtain ⟨q, hq, hqp⟩ := List.mem_map.mp hp
    by_cases hqk : q.1 = k
    · rw [if_pos hqk] at hqp
      exact Or.inr (by rw [← hpk, ← hqp])
    · rw [if_neg hqk] at hqp
      exact Or.inl (List.mem_map.mpr ⟨q, hq, by rw [← hpk, ← hqp]⟩)
  · rw [if_neg hany] at h
    rw [List.map_append] at h
    rcases List.mem_append.mp h with h2 | h2
    · exact Or.inl h2
    · exact Or.inr (by simpa using h2)

/-- `yesStep` on a row without tokens. -/
lemma yesStep_eq_nil (latestPrice : String → Option ℚ)
    (d : List (String × ℚ)) (r : AMarketRow) (h : r.clob_token_ids = []) :
    yesStep latestPrice d r = d := by
  unfold yesStep
  rw [h]

/-- `yesStep` on a row whose YES token has no price. -/
lemma yesStep_eq_none (latestPrice : String → Option ℚ)
    (d : List (String × ℚ)) (r : AMarketRow) (yes : String)
    (more : List String) (h : r.clob_token_ids = yes :: more)
    (hlp : latestPrice yes = none) : yesStep latestPrice d r = d := by
  unfold yesStep
  rw [h]
  show (match latestPrice yes with
    | some p => dictInsert d yes p
    | none => d) = d
  rw [hlp]

/-- `yesStep` on a row whose YES token has a latest price. -/
lemma yesStep_eq_some (latestPrice : String → Option ℚ)
    (d : List (String × ℚ)) (r : AMarketRow) (yes : String)
    (more : List String) (p : ℚ) (h : r.clob_token_ids = yes :: more)
    (hlp : latestPrice yes = some p) :
    yesStep latestPrice d r = dictInsert d yes p := by
  unfold yesStep
  rw [h]
  show (match latestPrice yes with
    | some p => dictInsert d yes p
    | none => d) = dictInsert d yes p
  rw [hlp]

/-- Every key of the YES-price dict is the head token of one of the
folded rows. -/
lemma yesPrices_fold_keys (latestPrice : String → Option ℚ) :
    ∀ (rows : List AMarketRow) (d : List (String × ℚ)) (k : String),
      k ∈ (rows.foldl (yesStep latestPrice) d).map Prod.fst →
      k ∈ d.map Prod.fst ∨
        ∃ r ∈ rows, ∃ rest, r.clob_token_ids = k :: rest := by
  intro rows
  induction rows with
  | nil => intro d k h; exact Or.inl (by simpa using h)
  | cons r rs ih =>
    intro d k h
    rw [List.foldl_cons] at h
    rcases ih (yesStep latestPrice d r) k h with h2 | ⟨r2, hr2, rest, hrest⟩
    · cases htoks : r.clob_token_ids with
      | nil =>
        rw [yesStep_eq_nil latestPrice d r htoks] at h2
        exact Or.inl h2
      | cons yes more =>
        cases hlp : latestPrice yes with
        | none =>
          rw [yesStep_eq_none latestPrice d r yes more htoks hlp] at h2
          exact Or.inl h2
        | some p =>
          rw [yesStep_eq_some latestPrice d r yes more p htoks hlp] at h2
          rcases dictInsert_keys d yes p k h2 with h3 | rfl
          · exact Or.inl h3
          · exact Or.inr ⟨r, by simp, more, htoks⟩
    · exact Or.inr ⟨r2, List.mem_cons_of_mem r hr2, rest, hrest⟩

/-- Every token classified by `detect_mispricing` heads the token list
of some `markets` row. -/
lemma detect_mispricing_tokens (dbRows : List AMarketRow)
    (latestPrice : String → Option ℚ) (g : MarketGroup) (tol : ℚ) :
    ∀ mp ∈ detect_mispricing dbRows latestPrice g tol,
      ∀ t ∈ mp.underpriced_token_ids ++ mp.overpriced_token_ids,
        ∃ r ∈ dbRows, ∃ rest, r.clob_token_ids = t :: rest := by
  intro mp hmp t ht
  simp only [detect_mispricing] at hmp
  split_ifs at hmp with h1 h2 h3 h4
  · simp at hmp
  · simp at hmp
  · simp at hmp
  · rw [List.mem_singleton] at hmp
    subst hmp
    simp only [List.append_nil, List.mem_append] at ht
    have hkey : t ∈ (yesTokenPrices
        (dbRows.filter (fun r => g.condition_ids.contains r.condition_id))
        latestPrice).map Prod.fst := ht
    rcases yesPrices_fold_keys latestPrice _ [] t hkey with h | ⟨r, hr, rest, hrest⟩
    · simp at h
    · exact ⟨r, (List.mem_filter.mp hr).1, rest, hrest⟩
  · rw [List.mem_singleton] at hmp
    subst hmp
    simp only [List.nil_append, List.mem_append] at ht
    have hkey : t ∈ (yesTokenPrices
        (dbRows.filter (fun r => g.condition_ids.contains r.condition_id))
        latestPrice).map Prod.fst := ht
    rcases yesPrices_fold_keys latestPrice _ [] t hkey with h | ⟨r, hr, rest, hrest⟩
    · simp at h
    · exact ⟨r, (List.mem_filter.mp hr).1, rest, hrest⟩

/-- The generators' `market_id` lookup never yields the empty string
when every stored `condition_id` is non-empty. -/
lemma lookupMarketId_ne (dbRows : List AMarketRow) (token : String)
    (hdb : ∀ r ∈ dbRows, r.condition_id ≠ "") :
    lookupMarketId dbRows token ≠ "" := by
  unfold lookupMarketId
  cases hf : dbRows.find? (fun r => r.clob_token_ids.contains token) with
  | none => simp
  | some r => exact hdb r (List.mem_of_find?_eq_some hf)

/-- Schema validity of the same-event generator's output. -/
lemma same_event_signalOK (dbRows : List AMarketRow)
    (latestPrice : String → Option ℚ)
    (hcid : ∀ r ∈ dbRows, r.condition_id ≠ "")
    (htok : ∀ r ∈ dbRows, ∀ t ∈ r.clob_token_ids, t ≠ "") :
    ∀ s ∈ generate_same_event_signals dbRows latestPrice, signalOK s := by
  intro s hs
  unfold generate_same_event_signals at hs
  obtain ⟨g, _, hs2⟩ := List.mem_flatMap.mp hs
  obtain ⟨mp, hmp, hs3⟩ := List.mem_flatMap.mp hs2
  unfold signalsOfMispricing at hs3
  obtain ⟨td, htd, hsig⟩ := List.mem_map.mp hs3
  have htmem : td.1 ∈ mp.underpriced_token_ids ++ mp.overpriced_token_ids := by
    by_cases hdev : mp.deviation < 0
    · rw [if_pos hdev] at htd
      obtain ⟨t2, ht2, hpair⟩ := List.mem_map.mp htd
      exact List.mem_append_left _ (by rw [← hpair]; exact ht2)
    · rw [if_neg hdev] at htd
      obtain ⟨t2, ht2, hpair⟩ := List.mem_map.mp htd
      exact List.mem_append_right _ (by rw [← hpair]; exact ht2)
  obtain ⟨r, hr, rest, hrest⟩ :=
    detect_mispricing_tokens dbRows latestPrice g (2 / 100) mp hmp td.1 htmem
  have htne : td.1 ≠ "" := htok r hr td.1 (by rw [hrest]; simp)
  have hdir : td.2 = "buy" ∨ td.2 = "sell" := by
    by_cases hdev : mp.deviation < 0
    · rw [if_pos hdev] at htd
      obtain ⟨t2, _, hpair⟩ := List.mem_map.mp htd
      exact Or.inl (by rw [← hpair])
    · rw [if_neg hdev] at htd
      obtain ⟨t2, _, hpair⟩ := List.mem_map.mp htd
      exact Or.inr (by rw [← hpair])
  subst hsig
  refine ⟨Or.inl rfl, hdir, ?_, ?_, ?_, htne, lookupMarketId_ne dbRows td.1 hcid⟩
  · exact le_min (by positivity) zero_le_one
  · exact min_le_right _ _
  · positivity

/-- A mean-reversion z-score is non-zero only with a positive standard
deviation on the row. -/
lemma meanRevZ_eq_none (r : MeanRevRow) (h : r.std_price = none) :
    meanRevZ r = 0 := by
  unfold meanRevZ
  rw [h]

/-- `meanRevZ` unfolded at a row with a present standard deviation. -/
lemma meanRevZ_eq_some (r : MeanRevRow) (sval : ℚ)
    (h : r.std_price = some sval) :
    meanRevZ r =
      if 0 < sval then (r.latest_price - r.mean_price) / sval else 0 := by
  unfold meanRevZ
  rw [h]

lemma meanRevZ_ne_zero (r : MeanRevRow) (h : meanRevZ r ≠ 0) :
    ∃ sval, r.std_price = some sval ∧ 0 < sval := by
  cases hstd : r.std_price with
  | none => rw [meanRevZ_eq_none r hstd] at h; simp at h
  | some sval =>
    rw [meanRevZ_eq_some r sval hstd] at h
    by_cases hpos : 0 < sval
    · exact ⟨sval, rfl, hpos⟩
    · rw [if_neg hpos] at h; simp at h

/-- Schema validity of the mean-reversion generator's output. -/
lemma mean_rev_signalOK (dbRows : List AMarketRow) (rows : List MeanRevRow)
    (z_threshold : ℚ) (hz : 0 < z_threshold)
    (hcid : ∀ r ∈ dbRows, r.condition_id ≠ "")
    (htok : ∀ r ∈ rows, r.token_id ≠ "") :
    ∀ s ∈ generate_mean_reversion_signals dbRows rows z_threshold,
      signalOK s := by
  intro s hs
  unfold generate_mean_reversion_signals at hs
  obtain ⟨r, hr, hs2⟩ := List.mem_flatMap.mp hs
  by_cases habs : |meanRevZ r| ≤ z_threshold
  · rw [if_pos habs] at hs2; simp at hs2
  · rw [if_neg habs] at hs2
    rw [List.mem_singleton] at hs2
    subst hs2
    have hgt : z_threshold < |meanRevZ r| := lt_of_not_le habs
    have hzne : meanRevZ r ≠ 0 := by
      intro h0
      rw [h0] at hgt
      simp at hgt
      exact absurd hgt (not_lt.mpr (le_of_lt hz))
    obtain ⟨sval, hstd, hspos⟩ := meanRevZ_ne_zero r hzne
    refine ⟨Or.inr (Or.inl rfl), ?_, ?_, ?_, ?_, htok r hr,
      lookupMarketId_ne dbRows r.token_id hcid⟩
    · by_cases hzpos : 0 < meanRevZ r
      · rw [if_pos hzpos]; exact Or.inr rfl
      · rw [if_neg hzpos]; exact Or.inl rfl
    · exact le_min (by positivity) zero_le_one
    · exact min_le_right _ _
    · rw [hstd]
      have h1 : (0 : ℚ) ≤ |meanRevZ r| - z_threshold :=
        sub_nonneg.mpr (le_of_lt hgt)
      have := mul_nonneg (mul_nonneg h1 (le_of_lt hspos)) (by norm_num : (0:ℚ) ≤ 100)
      simpa using this

/-- Schema validity of the spread generator's output. -/
lemma spread_signalOK (dbRows : List AMarketRow) (rows : List SpreadRow)
    (min_edge_pct : ℚ) (hme : 0 < min_edge_pct)
    (hcid : ∀ r ∈ dbRows, r.condition_id ≠ "")
    (htok : ∀ r ∈ rows, r.token_id ≠ "") :
    ∀ s ∈ generate_spread_signals dbRows rows min_edge_pct, signalOK s := by
  intro s hs
  unfold generate_spread_signals at hs
  obtain ⟨r, hr, hs2⟩ := List.mem_flatMap.mp hs
  have hrmem : r ∈ rows := (List.mem_filter.mp hr).1
  by_cases hedge : r.spread / r.midpoint * 100 < min_edge_pct
  · rw [if_pos hedge] at hs2; simp at hs2
  · rw [if_neg hedge] at hs2
    rw [List.mem_singleton] at hs2
    subst hs2
    have hge : min_edge_pct ≤ r.spread / r.midpoint * 100 := le_of_not_lt hedge
    refine ⟨Or.inr (Or.inr rfl), Or.inl rfl, ?_, ?_, ?_, htok r hrmem,
      lookupMarketId_ne dbRows r.token_id hcid⟩
    · exact le_min (div_nonneg (sub_nonneg.mpr hge) (le_of_lt hme)) zero_le_one
    · exact min_le_right _ _
    · exact le_trans (le_of_lt hme) hge

/-- C7: every signal produced by any of the three generators — over
any database rows with non-empty condition and token ids, any
z-score/order-book query rows with non-empty token ids, and positive
thresholds (the defaults are 2.0 and 2.0) — satisfies the schema:
known `signal_type`, buy/sell `direction`, `0 ≤ strength ≤ 1`,
`edge_pct ≥ 0`, and non-empty `token_id` and `market_id`. -/
theorem C7_signal_schema (dbRows : List AMarketRow)
    (latestPrice : String → Option ℚ) (mrRows : List MeanRevRow)
    (spRows : List SpreadRow) (z_threshold min_edge_pct : ℚ)
    (hz : 0 < z_threshold) (hme : 0 < min_edge_pct)
    (hcid : ∀ r ∈ dbRows, r.condition_id ≠ "")
    (htok : ∀ r ∈ dbRows, ∀ t ∈ r.clob_token_ids, t ≠ "")
    (hmr : ∀ r ∈ mrRows, r.token_id ≠ "")
    (hsp : ∀ r ∈ spRows, r.token_id ≠ "") :
    ∀ s ∈ generate_same_event_signals dbRows latestPrice ++
        generate_mean_reversion_signals dbRows mrRows z_threshold ++
        generate_spread_signals dbRows spRows min_edge_pct,
      signalOK s := by
  intro s hs
  rcases List.mem_append.mp hs with hs2 | hs2
  · rcases List.mem_append.mp hs2 with hs3 | hs3
    · exact same_event_signalOK dbRows latestPrice hcid htok s hs3
    · exact mean_rev_signalOK dbRows mrRows z_threshold hz hcid hmr s hs3
  · exact spread_signalOK dbRows spRows min_edge_pct hme hcid hsp s hs2

/-- C7 witness: the spread generator on a single snapshot row with
spread 1 and midpoint 1 (edge 100%) emits a schema-valid signal. -/
theorem C7_witness :
    signalOK
      { market_id := "unknown", signal_type := "spread", direction := "buy"
        strength := min (((1 : ℚ) / 1 * 100 - 2) / 2) 1
        edge_pct := (1 : ℚ) / 1 * 100
        token_id := "tk" } := by
  refine C7_signal_schema [] (fun _ => none) []
    [{ token_id := "tk", spread := 1, midpoint := 1 }] 2 2
    (by norm_num) (by norm_num) (by simp) (by simp) (by simp) (by simp) _ ?_
  simp only [generate_same_event_signals, find_same_event_markets,
    activeRowsSortedBySlug, sortListBy, List.filter_nil, List.foldl_nil,
    List.map_nil, List.flatMap_nil, List.nil_append,
    generate_mean_reversion_signals, generate_spread_signals]
  rw [show List.filter (fun r => decide (0 < r.midpoint))
      [({ token_id := "tk", spread := 1, midpoint := 1 } : SpreadRow)] =
      [{ token_id := "tk", spread := 1, midpoint := 1 }] by
    simp]
  rw [List.flatMap_cons]
  rw [if_neg (by norm_num : ¬((1 : ℚ) / 1 * 100 < 2))]
  simp [lookupMarketId]

/-- C8: a crashed slot with restart count `n < 5` is restarted after
`min(5 · 2^n, 60)` seconds with its count bumped to `n + 1`; the
resulting delay sequence over counts 0..4 is (5, 10, 20, 40, 60); and
a slot whose count has reached 5 logs CRITICAL with its count
unchanged, so that any number of further crashes leaves it dead. -/
theorem C8_monitor_restart_policy :
    (∀ n, n < monitorMaxRestarts →
      monitor_handle_crash n =
        (.restartAfter (min ((5 : ℚ) * 2 ^ n) 60), n + 1)) ∧
    ((List.range monitorMaxRestarts).map
        (fun n => min ((5 : ℚ) * 2 ^ n) 60) = [5, 10, 20, 40, 60]) ∧
    (∀ n, monitorMaxRestarts ≤ n → monitor_handle_crash n = (.critical, n)) ∧
    (∀ n k, monitorMaxRestarts ≤ n →
      (fun c => (monitor_handle_crash c).2)^[k] n = n) := by
  have hcrit : ∀ n, monitorMaxRestarts ≤ n →
      monitor_handle_crash n = (.critical, n) := by
    intro n hn
    simp [monitor_handle_crash, hn]
  refine ⟨?_, by norm_num [monitorMaxRestarts, List.range_succ, min_def], hcrit, ?_⟩
  · intro n hn
    simp [monitor_handle_crash, Nat.not_le.mpr hn, monitorBaseDelay,
      monitorMaxDelay]
  · intro n k hn
    induction k with
    | zero => rfl
    | succ k ih =>
      rw [Function.iterate_succ_apply, hcrit n hn]
      exact ih

/-- `tradeConflicts` unfolded at a row with an absent trade id. -/
lemma tradeConflicts_none (r : TradeRow) (hid : r.trade_id = none)
    (tab : List TradeRow) : tradeConflicts tab r = false := by
  unfold tradeConflicts
  rw [hid]

/-- `tradeConflicts` unfolded at a row with a present trade id. -/
lemma tradeConflicts_some (r : TradeRow) (tid : String)
    (hid : r.trade_id = some tid) (tab : List TradeRow) :
    tradeConflicts tab r =
      tab.any (fun q => decide (q.trade_id = some tid) && decide (q.ts = r.ts)) := by
  unfold tradeConflicts
  rw [hid]

/-- A conflict against a table persists when the table grows. -/
lemma tradeConflicts_append (tab xs : List TradeRow) (r : TradeRow)
    (h : tradeConflicts tab r = true) : tradeConflicts (tab ++ xs) r = true := by
  cases hid : r.trade_id with
  | none => rw [tradeConflicts_none r hid] at h; exact absurd h (by simp)
  | some tid =>
    rw [tradeConflicts_some r tid hid] at h ⊢
    rw [List.any_append, h, Bool.true_or]

/-- A row with a present trade id conflicts with any table containing
it. -/
lemma tradeConflicts_of_mem (tab : List TradeRow) (r : TradeRow) (tid : String)
    (hid : r.trade_id = some tid) (hmem : r ∈ tab) :
    tradeConflicts tab r = true := by
  rw [tradeConflicts_some r tid hid]
  exact List.any_eq_true.mpr ⟨r, hmem, by simp [hid]⟩

/-- A successful COPY appends the whole batch. -/
lemma copy_ok_eq_append :
    ∀ (batch tab t : List TradeRow),
      copy_records_to_table tab batch = .ok t → t = tab ++ batch := by
  intro batch
  induction batch with
  | nil =>
    intro tab t h
    simp only [copy_records_to_table] at h
    cases h
    simp
  | cons r rs ih =>
    intro tab t h
    unfold copy_records_to_table at h
    cases hc : tradeConflicts tab r with
    | true => rw [hc] at h; simp at h
    | false =>
      rw [hc] at h
      simp only [Bool.false_eq_true, if_false] at h
      rw [ih (tab ++ [r]) t h]
      simp

/-- The fallback only appends rows. -/
lemma fallback_eq_append :
    ∀ (batch tab : List TradeRow),
      ∃ ex, fallbackInsertTrades tab batch = tab ++ ex := by
  intro batch
  induction batch with
  | nil => intro tab; exact ⟨[], by simp [fallbackInsertTrades]⟩
  | cons r rs ih =>
    intro tab
    unfold fallbackInsertTrades
    cases hc : tradeConflicts tab r with
    | true => simpa using ih tab
    | false =>
      simp only [Bool.false_eq_true, if_false]
      obtain ⟨ex, hex⟩ := ih (tab ++ [r])
      exact ⟨r :: ex, by rw [hex]; simp⟩

/-- After the fallback runs on a batch of rows with present trade ids,
every batch row conflicts with the resulting table. -/
lemma fallback_conflict_all :
    ∀ (batch tab : List TradeRow),
      (∀ r ∈ batch, r.trade_id.isSome) →
      ∀ r ∈ batch, tradeConflicts (fallbackInsertTrades tab batch) r = true := by
  intro batch
  induction batch with
  | nil => intro tab _ r hr; simp at hr
  | cons x xs ih =>
    intro tab hids r hr
    obtain ⟨tid, htid⟩ : ∃ tid, x.trade_id = some tid := by
      have := hids x (by simp)
      cases hx : x.trade_id with
      | none => rw [hx] at this; simp at this
      | some t => exact ⟨t, rfl⟩
    unfold fallbackInsertTrades
    cases hc : tradeConflicts tab x with
    | true =>
      rcases List.mem_cons.mp hr with rfl | hr2
      · obtain ⟨ex, hex⟩ := fallback_eq_append xs tab
        rw [hex]
        exact tradeConflicts_append tab ex r hc
      · exact ih tab (fun q hq => hids q (by simp [hq])) r hr2
    | false =>
      simp only [Bool.false_eq_true, if_false]
      rcases List.mem_cons.mp hr with rfl | hr2
      · obtain ⟨ex, hex⟩ := fallback_eq_append xs (tab ++ [r])
        rw [hex]
        have hself : tradeConflicts (tab ++ [r]) r = true :=
          tradeConflicts_of_mem _ r tid htid (by simp)
        exact tradeConflicts_append _ ex r hself
      · exact ih (tab ++ [x]) (fun q hq => hids q (by simp [hq])) r hr2

/-- When every batch row already conflicts, the fallback inserts
nothing. -/
lemma fallback_noop :
    ∀ (batch tab : List TradeRow),
      (∀ r ∈ batch, tradeConflicts tab r = true) →
      fallbackInsertTrades tab batch = tab := by
  intro batch
  induction batch with
  | nil => intro tab _; rfl
  | cons x xs ih =>
    intro tab hconf
    unfold fallbackInsertTrades
    rw [hconf x (by simp)]
    simp only [if_true]
    exact ih tab (fun q hq => hconf q (by simp [hq]))

/-- C9 (amended): for every non-empty trade batch all of whose rows
carry a present trade identifier, `insert_trades` returns the input
batch size, never raises (it is total), and re-inserting the same
batch leaves the table unchanged — the second COPY hits the unique
index and the per-row fallback ignores every duplicate.  (The
restriction to present trade ids is forced: rows with absent trade id
are outside the partial unique index and are re-inserted by the
fallback, so the original claim's row-count equality fails for
them.) -/
theorem C9_insert_trades_amended (table batch : List TradeRow)
    (hne : batch ≠ []) (hids : ∀ r ∈ batch, r.trade_id.isSome) :
    (insert_trades table batch).2 = batch.length ∧
    (insert_trades (insert_trades table batch).1 batch).1 =
      (insert_trades table batch).1 ∧
    (insert_trades (insert_trades table batch).1 batch).2 = batch.length := by
  obtain ⟨b, bs, rfl⟩ : ∃ b bs, batch = b :: bs := by
    cases batch with
    | nil => exact absurd rfl hne
    | cons b bs => exact ⟨b, bs, rfl⟩
  have hcount : ∀ tab : List TradeRow,
      (insert_trades tab (b :: bs)).2 = (b :: bs).length := by
    intro tab
    unfold insert_trades
    simp only [List.isEmpty_cons, Bool.false_eq_true, if_false]
    cases copy_records_to_table tab (b :: bs) <;> rfl
  have hconf : ∀ r ∈ b :: bs,
      tradeConflicts (insert_trades table (b :: bs)).1 r = true := by
    intro r hr
    unfold insert_trades
    simp only [List.isEmpty_cons, Bool.false_eq_true, if_false]
    cases hcopy : copy_records_to_table table (b :: bs) with
    | ok t =>
      have ht := copy_ok_eq_append (b :: bs) table t hcopy
      obtain ⟨tid, htid⟩ : ∃ tid, r.trade_id = some tid := by
        have := hids r hr
        cases hx : r.trade_id with
        | none => rw [hx] at this; simp at this
        | some t2 => exact ⟨t2, rfl⟩
      exact tradeConflicts_of_mem t r tid htid (ht ▸ by simp [hr])
    | error e =>
      exact fallback_conflict_all (b :: bs) table hids r hr
  refine ⟨hcount table, ?_, hcount _⟩
  generalize hgen : (insert_trades table (b :: bs)).1 = t1 at hconf ⊢
  have hcerr : copy_records_to_table t1 (b :: bs) = .error () := by
    unfold copy_records_to_table
    rw [hconf b (by simp)]
    rfl
  unfold insert_trades
  simp only [List.isEmpty_cons, Bool.false_eq_true, if_false]
  rw [hcerr]
  exact fallback_noop (b :: bs) t1 hconf

/-- C9 witness: a two-row batch with distinct present trade ids:
first insert returns 2; re-inserting the same batch leaves the table
as it was after the first insert. -/
theorem C9_witness :
    (insert_trades [] [c9RowA, c9RowC]).2 = 2 ∧
    (insert_trades (insert_trades [] [c9RowA, c9RowC]).1 [c9RowA, c9RowC]).1 =
      (insert_trades [] [c9RowA, c9RowC]).1 := by
  have h := C9_insert_trades_amended [] [c9RowA, c9RowC] (by simp)
    (by intro r hr
        rcases List.mem_cons.mp hr with rfl | hr2
        · rfl
        · rcases List.mem_cons.mp hr2 with rfl | hr3
          · rfl
          · simp at hr3)
  exact ⟨h.1, h.2.1⟩

/-- C9 counterexample to the claim as stated: a batch holding one row
with a trade id and one without (the trade listener emits only
id-less rows).  Re-inserting the batch raises the uniqueness violation
on the id-carrying row, and the fallback then re-inserts the id-less
row: the table grows from 2 to 3 rows, so the twice-inserted row count
does not equal the first insert's count. -/
theorem C9_counterexample :
    insert_trades [] [c9RowA, c9RowB] = ([c9RowA, c9RowB], 2) ∧
    (insert_trades [c9RowA, c9RowB] [c9RowA, c9RowB]).1 =
      [c9RowA, c9RowB, c9RowB] ∧
    ([c9RowA, c9RowB, c9RowB] : List TradeRow).length ≠
      ([c9RowA, c9RowB] : List TradeRow).length := by
  refine ⟨rfl, rfl, by decide⟩

/-- C10: re-upserting existing metadata under the same `condition_id`
updates the nine listed columns, sets `updated_at` to the call time,
and leaves `created_at` (and the key) unchanged. -/
theorem C10_upsert_market_update (table : List MarketTableRow)
    (d : MarketData) (now : ℕ) (r : MarketTableRow)
    (hr : r ∈ table) (hid : r.condition_id = d.condition_id) :
    applyMarketUpdate r d now ∈ upsert_market table d now ∧
    (applyMarketUpdate r d now).created_at = r.created_at ∧
    (applyMarketUpdate r d now).updated_at = now ∧
    (applyMarketUpdate r d now).condition_id = r.condition_id ∧
    (applyMarketUpdate r d now).question = d.question ∧
    (applyMarketUpdate r d now).slug = d.slug ∧
    (applyMarketUpdate r d now).market_type = d.market_type ∧
    (applyMarketUpdate r d now).outcomes = d.outcomes ∧
    (applyMarketUpdate r d now).clob_token_ids = d.clob_token_ids ∧
    (applyMarketUpdate r d now).active = d.active ∧
    (applyMarketUpdate r d now).closed = d.closed ∧
    (applyMarketUpdate r d now).end_date_iso = d.end_date_iso := by
  have hany : table.any (fun q => decide (q.condition_id = d.condition_id)) = true :=
    List.any_eq_true.mpr ⟨r, hr, by simp [hid]⟩
  refine ⟨?_, rfl, rfl, rfl, rfl, rfl, rfl, rfl, rfl, rfl, rfl, rfl⟩
  unfold upsert_market
  rw [hany]
  simp only [if_true]
  exact List.mem_map.mpr ⟨r, hr, by rw [if_pos hid]⟩

/-- C10 witness: updating the concrete pre-existing row at time 42
keeps `created_at = 17` and sets `updated_at = 42`, with the new
metadata in place. -/
theorem C10_witness :
    applyMarketUpdate c10Row c10Data 42 ∈ upsert_market [c10Row] c10Data 42 ∧
    (applyMarketUpdate c10Row c10Data 42).created_at = 17 ∧
    (applyMarketUpdate c10Row c10Data 42).updated_at = 42 ∧
    (applyMarketUpdate c10Row c10Data 42).question = "Will X still happen?" := by
  have h := C10_upsert_market_update [c10Row] c10Data 42 c10Row (by simp) rfl
  exact ⟨h.1, h.2.1, h.2.2.1, h.2.2.2.2.1⟩

/-- C8 witness: concrete instances — a third crash (count 2) waits
20 s and moves the count to 3; a slot at count 5 goes CRITICAL and
stays at 5. -/
theorem C8_witness :
    monitor_handle_crash 2 = (.restartAfter 20, 3) ∧
    monitor_handle_crash 5 = (.critical, 5) := by
  constructor
  · rw [C8_monitor_restart_policy.1 2 (by decide)]
    norm_num [min_def]
  · exact C8_monitor_restart_policy.2.2.1 5 (by decide)

/-- Inserting a fresh key appends it. -/
lemma dictInsert_not_mem (d : List (String × ℚ)) (k : String) (v : ℚ)
    (h : k ∉ d.map Prod.fst) : dictInsert d k v = d ++ [(k, v)] := by
  unfold dictInsert
  rw [if_neg]
  intro hany
  obtain ⟨p, hp, hpk⟩ := List.any_eq_true.mp hany
  exact h (List.mem_map.mpr ⟨p, hp, by simpa using hpk⟩)

/-- When every folded row has a non-empty token list with an available
latest price, the YES tokens are pairwise distinct, and none of them
collides with the accumulator, the price dict is exactly the
per-member association list. -/
lemma yesPrices_fold_eq (latestPrice : String → Option ℚ) :
    ∀ (rows : List AMarketRow) (d : List (String × ℚ)),
      (∀ r ∈ rows, r.clob_token_ids ≠ []) →
      (∀ r ∈ rows, (latestPrice (yesTok r)).isSome) →
      (rows.map yesTok).Nodup →
      (∀ r ∈ rows, yesTok r ∉ d.map Prod.fst) →
      rows.foldl (yesStep latestPrice) d =
        d ++ rows.map (fun r => (yesTok r, (latestPrice (yesTok r)).getD 0)) := by
  intro rows
  induction rows with
  | nil => intro d _ _ _ _; simp
  | cons r rs ih =>
    intro d hne hsome hnodup hfresh
    obtain ⟨yes, more, htoks⟩ : ∃ yes more, r.clob_token_ids = yes :: more := by
      cases h : r.clob_token_ids with
      | nil => exact absurd h (hne r (by simp))
      | cons a b => exact ⟨a, b, rfl⟩
    have hyes : yesTok r = yes := by rw [yesTok, htoks]; rfl
    obtain ⟨p, hp⟩ : ∃ p, latestPrice yes = some p := by
      have hs := hsome r (by simp)
      rw [hyes] at hs
      exact Option.isSome_iff_exists.mp hs
    have hheadfresh : yes ∉ d.map Prod.fst := hyes ▸ hfresh r (by simp)
    rw [List.foldl_cons, yesStep_eq_some latestPrice d r yes more p htoks hp,
      dictInsert_not_mem d yes p hheadfresh]
    have hnodup2 : (rs.map yesTok).Nodup := by
      rw [List.map_cons, List.nodup_cons] at hnodup
      exact hnodup.2
    have hheadnotin : yesTok r ∉ rs.map yesTok := by
      rw [List.map_cons, List.nodup_cons] at hnodup
      exact hnodup.1
    have hfresh2 : ∀ r2 ∈ rs, yesTok r2 ∉ (d ++ [(yes, p)]).map Prod.fst := by
      intro r2 hr2
      rw [List.map_append, List.mem_append]
      rintro (h | h)
      · exact hfresh r2 (List.mem_cons_of_mem r hr2) h
      · have h2 : yesTok r2 = yes := by simpa using h
        apply hheadnotin
        rw [hyes, ← h2]
        exact List.mem_map_of_mem yesTok hr2
    rw [ih (d ++ [(yes, p)]) (fun r2 hr2 => hne r2 (List.mem_cons_of_mem r hr2))
      (fun r2 hr2 => hsome r2 (List.mem_cons_of_mem r hr2)) hnodup2 hfresh2]
    rw [List.map_cons, List.append_assoc]
    rw [hyes, hp]
    rfl

/-- C2 (amended): for a same-event group whose member markets are all
present with non-empty token lists, pairwise-DISTINCT YES tokens, and
an available latest price per YES token, `detect_mispricing` behaves
as the claim states with `S` the sum of the members' latest YES
prices: empty result when `|S − 1| ≤ tolerance`, otherwise exactly one
record with `yes_sum = S`, `deviation = S − 1`, all YES tokens
underpriced when the deviation is negative and all overpriced when
positive; the same-event signal emission then yields one BUY per token
when `S − 1 < 0` and one SELL per token when `S − 1 > 0`, with
`strength = min(|S − 1| · 10, 1)` and `edge_pct = |S − 1| · 100`.
(The distinctness restriction is forced: the source keys its price
accumulation by YES token, so members sharing a YES token contribute
once, not once per market — see the counterexample.) -/
theorem C2_detect_mispricing_amended (dbRows : List AMarketRow)
    (latestPrice : String → Option ℚ) (g : MarketGroup) (tol : ℚ)
    (h1 : dbRows.filter (fun r => g.condition_ids.contains r.condition_id) ≠ [])
    (h2 : ∀ r ∈ dbRows.filter (fun r => g.condition_ids.contains r.condition_id),
      r.clob_token_ids ≠ [])
    (h3 : ∀ r ∈ dbRows.filter (fun r => g.condition_ids.contains r.condition_id),
      (latestPrice (yesTok r)).isSome)
    (h4 : ((dbRows.filter (fun r => g.condition_ids.contains r.condition_id)).map
      yesTok).Nodup) :
    (|((dbRows.filter (fun r => g.condition_ids.contains r.condition_id)).map
          (fun r => (latestPrice (yesTok r)).getD 0)).sum - 1| ≤ tol →
      detect_mispricing dbRows latestPrice g tol = []) ∧
    (tol < |((dbRows.filter (fun r => g.condition_ids.contains r.condition_id)).map
          (fun r => (latestPrice (yesTok r)).getD 0)).sum - 1| →
      ((dbRows.filter (fun r => g.condition_ids.contains r.condition_id)).map
          (fun r => (latestPrice (yesTok r)).getD 0)).sum - 1 < 0 →
      detect_mispricing dbRows latestPrice g tol =
        [{ condition_ids := g.condition_ids
           yes_sum := ((dbRows.filter
             (fun r => g.condition_ids.contains r.condition_id)).map
               (fun r => (latestPrice (yesTok r)).getD 0)).sum
           deviation := ((dbRows.filter
             (fun r => g.condition_ids.contains r.condition_id)).map
               (fun r => (latestPrice (yesTok r)).getD 0)).sum - 1
           underpriced_token_ids := (dbRows.filter
             (fun r => g.condition_ids.contains r.condition_id)).map yesTok
           overpriced_token_ids := [] }] ∧
      ∀ mp ∈ detect_mispricing dbRows latestPrice g tol,
        signalsOfMispricing dbRows mp =
          (dbRows.filter (fun r => g.condition_ids.contains r.condition_id)).map
            (fun r =>
              { market_id := lookupMarketId dbRows (yesTok r)
                signal_type := "same_event", direction := "buy"
                strength := min (|mp.deviation| * 10) 1
                edge_pct := |mp.deviation| * 100
                token_id := yesTok r })) ∧
    (tol < |((dbRows.filter (fun r => g.condition_ids.contains r.condition_id)).map
          (fun r => (latestPrice (yesTok r)).getD 0)).sum - 1| →
      0 < ((dbRows.filter (fun r => g.condition_ids.contains r.condition_id)).map
          (fun r => (latestPrice (yesTok r)).getD 0)).sum - 1 →
      detect_mispricing dbRows latestPrice g tol =
        [{ condition_ids := g.condition_ids
           yes_sum := ((dbRows.filter
             (fun r => g.condition_ids.contains r.condition_id)).map
               (fun r => (latestPrice (yesTok r)).getD 0)).sum
           deviation := ((dbRows.filter
             (fun r => g.condition_ids.contains r.condition_id)).map
               (fun r => (latestPrice (yesTok r)).getD 0)).sum - 1
           underpriced_token_ids := []
           overpriced_token_ids := (dbRows.filter
             (fun r => g.condition_ids.contains r.condition_id)).map yesTok }] ∧
      ∀ mp ∈ detect_mispricing dbRows latestPrice g tol,
        signalsOfMispricing dbRows mp =
          (dbRows.filter (fun r => g.condition_ids.contains r.condition_id)).map
            (fun r =>
              { market_id := lookupMarketId dbRows (yesTok r)
                signal_type := "same_event", direction := "sell"
                strength := min (|mp.deviation| * 10) 1
                edge_pct := |mp.deviation| * 100
                token_id := yesTok r })) := by
  have hytp : yesTokenPrices
      (dbRows.filter (fun r => g.condition_ids.contains r.condition_id))
      latestPrice =
      (dbRows.filter (fun r => g.condition_ids.contains r.condition_id)).map
        (fun r => (yesTok r, (latestPrice (yesTok r)).getD 0)) :=
    yesPrices_fold_eq latestPrice _ [] h2 h3 h4 (by simp)
  have hrowsne : (dbRows.filter
      (fun r => g.condition_ids.contains r.condition_id)).isEmpty = false := by
    cases hm : dbRows.filter (fun r => g.condition_ids.contains r.condition_id) with
    | nil => exact absurd hm h1
    | cons a l => rfl
  have hytpne : (yesTokenPrices
      (dbRows.filter (fun r => g.condition_ids.contains r.condition_id))
      latestPrice).isEmpty = false := by
    rw [hytp]
    cases hm : dbRows.filter (fun r => g.condition_ids.contains r.condition_id) with
    | nil => exact absurd hm h1
    | cons a l => rfl
  have hsum : ((yesTokenPrices
      (dbRows.filter (fun r => g.condition_ids.contains r.condition_id))
      latestPrice).map Prod.snd).sum =
      ((dbRows.filter (fun r => g.condition_ids.contains r.condition_id)).map
        (fun r => (latestPrice (yesTok r)).getD 0)).sum := by
    rw [hytp, List.map_map]
    rfl
  have hkeys : (yesTokenPrices
      (dbRows.filter (fun r => g.condition_ids.contains r.condition_id))
      latestPrice).map Prod.fst =
      (dbRows.filter (fun r => g.condition_ids.contains r.condition_id)).map
        yesTok := by
    rw [hytp, List.map_map]
    rfl
  have hdet : detect_mispricing dbRows latestPrice g tol =
      if |((dbRows.filter (fun r => g.condition_ids.contains r.condition_id)).map
          (fun r => (latestPrice (yesTok r)).getD 0)).sum - 1| ≤ tol then []
      else if ((dbRows.filter
          (fun r => g.condition_ids.contains r.condition_id)).map
            (fun r => (latestPrice (yesTok r)).getD 0)).sum - 1 < 0 then
        [{ condition_ids := g.condition_ids
           yes_sum := ((dbRows.filter
             (fun r => g.condition_ids.contains r.condition_id)).map
               (fun r => (latestPrice (yesTok r)).getD 0)).sum
           deviation := ((dbRows.filter
             (fun r => g.condition_ids.contains r.condition_id)).map
               (fun r => (latestPrice (yesTok r)).getD 0)).sum - 1
           underpriced_token_ids := (dbRows.filter
             (fun r => g.condition_ids.contains r.condition_id)).map yesTok
           overpriced_token_ids := [] }]
      else
        [{ condition_ids := g.condition_ids
           yes_sum := ((dbRows.filter
             (fun r => g.condition_ids.contains r.condition_id)).map
               (fun r => (latestPrice (yesTok r)).getD 0)).sum
           deviation := ((dbRows.filter
             (fun r => g.condition_ids.contains r.condition_id)).map
               (fun r => (latestPrice (yesTok r)).getD 0)).sum - 1
           underpriced_token_ids := []
           overpriced_token_ids := (dbRows.filter
             (fun r => g.condition_ids.contains r.condition_id)).map yesTok }] := by
    simp only [detect_mispricing, hrowsne, hytpne, hsum, hkeys,
      Bool.false_eq_true, if_false]
  refine ⟨?_, ?_, ?_⟩
  · intro htol
    rw [hdet, if_pos htol]
  · intro htol hneg
    have hdet2 := hdet
    rw [if_neg (not_le.mpr htol), if_pos hneg] at hdet2
    refine ⟨hdet2, ?_⟩
    intro mp hmp
    rw [hdet2, List.mem_singleton] at hmp
    subst hmp
    unfold signalsOfMispricing
    rw [if_pos (by simpa using hneg)]
    simp only [List.map_map]
    rfl
  · intro htol hpos
    have hdet2 := hdet
    rw [if_neg (not_le.mpr htol), if_neg (by simpa using not_lt.mpr (le_of_lt hpos))]
      at hdet2
    refine ⟨hdet2, ?_⟩
    intro mp hmp
    rw [hdet2, List.mem_singleton] at hmp
    subst hmp
    unfold signalsOfMispricing
    rw [if_neg (by simpa using not_lt.mpr (le_of_lt hpos))]
    simp only [List.map_map]
    rfl

/-- C2 witness: two member markets with YES prices 2 and 3 and
tolerance 1: the sum 5 deviates by +4, so exactly one mispricing is
returned with both YES tokens overpriced, and the emitted signals are
SELLs on both tokens. -/
theorem C2_witness :
    detect_mispricing c2WitRows c2WitPrice c2WitGroup 1 =
      [{ condition_ids := ["c1", "c2"], yes_sum := 5, deviation := 4
         underpriced_token_ids := [], overpriced_token_ids := ["A", "B"] }] := by
  have hBA : ("B" = "A") = False := eq_false (by decide)
  have h := (C2_detect_mispricing_amended c2WitRows c2WitPrice c2WitGroup 1
    (by decide) (by decide) (by decide) (by decide)).2.2
    (by norm_num [c2WitRows, c2WitPrice, c2WitGroup, yesTok, hBA])
    (by norm_num [c2WitRows, c2WitPrice, c2WitGroup, yesTok, hBA])
  rw [h.1]
  norm_num [c2WitRows, c2WitPrice, c2WitGroup, yesTok, hBA]

/-- C2 counterexample to the claim as stated: two member markets share
the YES token `A` (price 3).  The sum of the latest prices of each
member market's YES token is 6, but the record returned carries
`yes_sum = 3`: the source accumulates prices in a dict keyed by YES
token, counting the shared token once. -/
theorem C2_counterexample :
    ((c2DupRows.filter
        (fun r => c2DupGroup.condition_ids.contains r.condition_id)).map
      (fun r => (c2DupPrice (yesTok r)).getD 0)).sum = 6 ∧
    detect_mispricing c2DupRows c2DupPrice c2DupGroup 1 =
      [{ condition_ids := ["c1", "c2"], yes_sum := 3, deviation := 2
         underpriced_token_ids := [], overpriced_token_ids := ["A"] }] ∧
    (3 : ℚ) ≠ 6 := by
  refine ⟨?_, ?_, by norm_num⟩
  · norm_num [c2DupRows, c2DupPrice, c2DupGroup, yesTok]
  · norm_num [detect_mispricing, c2DupRows, c2DupPrice, c2DupGroup,
      yesTokenPrices, yesStep, dictInsert, yesTok]

end PolyStat
